import Mathlib

/-!
# Semaphore FIFO (`tsemfifo.h`) and the quorum functor (`Controller.h`)

A shallow embedding of `tsemfifo<T>` as explicit state passing, seen by one
calling thread, and of `Controller::NotInState`.

* Unsigned 32-bit members (`_head`, `_tail`, `_buf_len`, `_objects`) are
  natural numbers with explicit reduction modulo `2^32`.
* A POSIX semaphore is its count.  A call that fails for a reason outside
  the count (a signal, an invalid handle, ...) is described by the caller of
  the model through `SemEnv`; `SemEnv.ok` is the environment without failures.
* A call that never returns to its single caller has outcome `blocked`; an
  access outside the allocated array has outcome `fault`.
-/

set_option autoImplicit false

/-! ## Constants of `<errno.h>` (Linux values) and of the machine -/

/-- Value of `EINTR` in `<errno.h>`. -/
def EINTR : Nat := 4

/-- Value of `EAGAIN` in `<errno.h>`. -/
def EAGAIN : Nat := 11

/-- Value of `EDEADLK` in `<errno.h>`. -/
def EDEADLK : Nat := 35

/-- Number of values of an `unsigned int`. -/
@[irreducible]
def UINT_RANGE : Nat := 4294967296

/-- Largest value of an `int`. -/
def INT_MAX : Int := 2147483647

/-! ## Data model -/

/-- Data members of `tsemfifo<T>`.  `_buffer` is the array allocated by
`new T[size]`; the two semaphores are their counts; the two `TCondition<bool>`
members are their current values. -/
structure tsemfifo (T : Type) where
  _buffer : List T
  _head : Nat
  _tail : Nat
  _buf_len : Nat
  _objects : Nat
  _full_sem : Nat
  _empty_sem : Nat
  _release : Bool
  _empty : Bool
deriving DecidableEq, Repr

/-- How a member function call ends for its caller: it returns `r`, leaving
the queue in state `s` and the reference argument holding `obj`; it never
returns; it throws `tsemfifo::Exception` with error code `ec`; or it touches
memory outside `_buffer`. -/
inductive Outcome (R T : Type) where
  | returned (r : R) (s : tsemfifo T) (obj : T)
  | blocked
  | thrown (ec : Nat) (s : tsemfifo T) (obj : T)
  | fault
deriving DecidableEq, Repr

/-- The statement `return true;` that follows the call of a private helper:
the helper's exception passes through. -/
def Outcome.then_true {T : Type} : Outcome Unit T → Outcome Bool T
  | .returned _ s obj => .returned true s obj
  | .thrown e s obj => .thrown e s obj
  | .blocked => .blocked
  | .fault => .fault

/-- Failures of the semaphore calls made during one member function call that
do not depend on the count: `wait_fail` lists the `errno` of each
`sem_wait`/`sem_trywait` call that fails before one reaches the counter,
`post_fail` is the `errno` of a failing `sem_post`. -/
structure SemEnv where
  wait_fail : List Nat
  post_fail : Option Nat
deriving DecidableEq, Repr

/-- The environment in which no semaphore call fails. -/
def SemEnv.ok : SemEnv := ⟨[], none⟩

/-! ## Semaphores and conditions -/

/-- Result of one semaphore call or of a retry loop around it: the new count,
an `errno`, or no return at all. -/
inductive SemRes where
  | ok (count : Nat)
  | err (errno : Nat)
  | blocks
deriving DecidableEq, Repr

/-- POSIX `sem_trywait`: takes one unit if there is one, `EAGAIN` otherwise. -/
def sem_trywait (fail : Option Nat) (count : Nat) : SemRes :=
  match fail with
  | some e => .err e
  | none => if 0 < count then .ok (count - 1) else .err EAGAIN

/-- POSIX `sem_wait`: takes one unit, waiting while there is none.  With a
single thread nobody posts, so a wait on count 0 never returns. -/
def sem_wait (fail : Option Nat) (count : Nat) : SemRes :=
  match fail with
  | some e => .err e
  | none => if 0 < count then .ok (count - 1) else .blocks

/-- POSIX `sem_post` on a count. -/
def sem_post (fail : Option Nat) (count : Nat) : SemRes :=
  match fail with
  | some e => .err e
  | none => .ok (count + 1)

/-- The loop
`do { r = sem_wait(sem); if (r == -1 && errno != EINTR) throw e; }
 while (r == -1 && errno != EDEADLK);`
of `put()` and `get()`.  `.ok c` is leaving the loop with count `c`,
`.err e` is the exception. -/
def sem_wait_loop : List Nat → Nat → SemRes
  | [], count => sem_wait none count
  | e :: es, count =>
    match sem_wait (some e) count with
    | .ok c => .ok c
    | .blocks => .blocks
    | .err errno =>
      if errno ≠ EINTR then .err errno
      else if errno ≠ EDEADLK then sem_wait_loop es count
      else .ok count

/-- Modelled from the spec: `TCondition.h` is not among the sources.  A
`TCondition<bool>` is "a condition flag"; `wait(s, usecs)` waits at most
`usecs` microseconds for the value to equal `s` and reports whether it does
("true if empty, false on timeout").  No other thread changes the value,
so the answer is the comparison at the call, whatever `usecs` is. -/
def TCondition.wait_usecs (value s : Bool) (_usecs : Int) : Bool :=
  value == s

/-- Modelled from the spec: `TCondition.h` is not among the sources.
`wait(s)` without a timeout "blocks until" the value equals `s`: it returns
(`true`) when it does and never returns (`false`) otherwise, since no other
thread changes the value. -/
def TCondition.wait_forever (value s : Bool) : Bool :=
  value == s

/-- The `int` that a signed 32-bit multiplication wraps to. -/
def wrap_int (z : Int) : Int :=
  (z + 2147483648) % 4294967296 - 2147483648

namespace tsemfifo

variable {T : Type}

/-! ## Member functions -/

/-- Semaphore initialisation `_create_sem()`: `sem_init(&_full_sem, 0, 0)`
and `sem_init(&_empty_sem, 0, _buf_len)`. -/
def _create_sem (s : tsemfifo T) : tsemfifo T :=
  { s with _full_sem := 0, _empty_sem := s._buf_len }

/-- Constructor `tsemfifo(int size)`.  `new T[size]` throws for a negative
`size` (no object exists, `none`); otherwise the array holds `size`
default-constructed elements. -/
def construct [Inhabited T] (size : Int) : Option (tsemfifo T) :=
  if size < 0 then none
  else
    let s : tsemfifo T :=
      { _buffer := List.replicate size.toNat default
        _head := 0, _tail := 0
        _buf_len := (size % UINT_RANGE).toNat
        _objects := 0
        _full_sem := 0, _empty_sem := 0
        _release := false, _empty := true }
    let s := _create_sem s
    some { s with _head := 0, _tail := 0, _objects := 0 }

/-- Member function `flush()`: semaphores re-created, released flag down,
empty flag up, indices and count at 0; the array is left as it is. -/
def flush (s : tsemfifo T) : tsemfifo T :=
  { _create_sem s with _release := false, _empty := true, _head := 0, _tail := 0, _objects := 0 }

/-- Member function `wait_for_empty(int milliseconds)`; the state is not
written, so only the result is given: `some b` for a return of `b`, `none`
for a wait that never ends. -/
def wait_for_empty (s : tsemfifo T) (milliseconds : Int) : Option Bool :=
  if milliseconds = -1 then
    if TCondition.wait_forever s._empty true then some true else none
  else
    some (TCondition.wait_usecs s._empty true (wrap_int (milliseconds * 1000)))

/-- Private `_put(T &obj)`: write at `_tail`, advance `_tail` with wrap at
`_buf_len - 1`, clear the empty condition if the queue was empty, count the
element, post `_full_sem`.  A write outside the array is `fault`; a failing
`sem_post` throws after the members were written. -/
def _put (post_fail : Option Nat) (s : tsemfifo T) (obj : T) : Outcome Unit T :=
  if s._tail < s._buffer.length then
    let buffer := s._buffer.set s._tail obj
    let tail :=
      if s._tail < (s._buf_len + UINT_RANGE - 1) % UINT_RANGE then (s._tail + 1) % UINT_RANGE
      else 0
    let empty := if s._objects = 0 then false else s._empty
    let objects := (s._objects + 1) % UINT_RANGE
    let s1 := { s with _buffer := buffer, _tail := tail, _empty := empty, _objects := objects }
    match sem_post post_fail s._full_sem with
    | .ok c => .returned () { s1 with _full_sem := c } obj
    | .err e => .thrown e s1 obj
    | .blocks => .blocked
  else .fault

/-- Member function `put(T &obj)`: the wait loop on `_empty_sem`, the test
`_release.wait(true, 0)`, then `_put`. -/
def put (env : SemEnv) (s : tsemfifo T) (obj : T) : Outcome Bool T :=
  match sem_wait_loop env.wait_fail s._empty_sem with
  | .err e => .thrown e s obj
  | .blocks => .blocked
  | .ok c =>
    let s := { s with _empty_sem := c }
    if TCondition.wait_usecs s._release true 0 then .returned false s obj
    else
      (_put env.post_fail s obj).then_true

/-- Member function `try_put(T &obj)`: one `sem_trywait` on `_empty_sem`;
`EAGAIN` returns `false`, any other error throws; then `_put`. -/
def try_put (env : SemEnv) (s : tsemfifo T) (obj : T) : Outcome Bool T :=
  match sem_trywait env.wait_fail.head? s._empty_sem with
  | .err e => if e = EAGAIN then .returned false s obj else .thrown e s obj
  | .blocks => .blocked
  | .ok c =>
    (_put env.post_fail { s with _empty_sem := c } obj).then_true

/-- Private `_get(T &obj)`: read at `_head`, advance `_head` with wrap at
`_buf_len - 1`, decrement `_objects` (an `unsigned int`), set the empty
condition if the count is now 0, post `_empty_sem`.  A read outside the array
is `fault`. -/
def _get (post_fail : Option Nat) (s : tsemfifo T) (_obj : T) : Outcome Unit T :=
  match s._buffer[s._head]? with
  | none => .fault
  | some obj =>
    let head :=
      if s._head < (s._buf_len + UINT_RANGE - 1) % UINT_RANGE then (s._head + 1) % UINT_RANGE
      else 0
    let objects := (s._objects + UINT_RANGE - 1) % UINT_RANGE
    let empty := if objects = 0 then true else s._empty
    let s1 := { s with _head := head, _objects := objects, _empty := empty }
    match sem_post post_fail s._empty_sem with
    | .ok c => .returned () { s1 with _empty_sem := c } obj
    | .err e => .thrown e s1 obj
    | .blocks => .blocked

/-- Member function `get(T &obj)`: the wait loop on `_full_sem`, the test
`_release.wait(true, 0)`, then `_get`. -/
def get (env : SemEnv) (s : tsemfifo T) (obj : T) : Outcome Bool T :=
  match sem_wait_loop env.wait_fail s._full_sem with
  | .err e => .thrown e s obj
  | .blocks => .blocked
  | .ok c =>
    let s := { s with _full_sem := c }
    if TCondition.wait_usecs s._release true 0 then .returned false s obj
    else
      (_get env.post_fail s obj).then_true

/-- Member function `try_get(T &obj)`: one `sem_trywait` on `_full_sem`;
`EAGAIN` returns `false`, any other error throws; then `_get`. -/
def try_get (env : SemEnv) (s : tsemfifo T) (obj : T) : Outcome Bool T :=
  match sem_trywait env.wait_fail.head? s._full_sem with
  | .err e => if e = EAGAIN then .returned false s obj else .thrown e s obj
  | .blocks => .blocked
  | .ok c =>
    (_get env.post_fail { s with _full_sem := c } obj).then_true

/-- Member function `release()`; the results of both `sem_post` calls are
ignored by the code, a failing one leaves its count as it is. -/
def release (env : SemEnv) (s : tsemfifo T) : tsemfifo T :=
  let full := match sem_post env.post_fail s._full_sem with
    | .ok c => c
    | _ => s._full_sem
  let empty := match sem_post env.post_fail s._empty_sem with
    | .ok c => c
    | _ => s._empty_sem
  { s with _release := true, _full_sem := full, _empty_sem := empty }

/-- Member function `size()`. -/
def size (s : tsemfifo T) : Nat := s._objects

/-- Member function `capacity()`. -/
def capacity (s : tsemfifo T) : Nat := s._buf_len

end tsemfifo

/-! ## One caller making a sequence of calls -/

/-- A call of a public member function, with its arguments (`obj` of
`get`/`try_get` is the content of the caller's variable before the call). -/
inductive Op (T : Type) where
  | put (x : T)
  | try_put (x : T)
  | get (obj : T)
  | try_get (obj : T)
  | release
  | flush
  | wait_for_empty (milliseconds : Int)
  | size
  | capacity
deriving DecidableEq, Repr

/-- What one caller has seen so far: the queue, the values of the `put` and
`try_put` calls that returned `true`, and the values left in `obj` by the
`get` and `try_get` calls that returned `true`, both in call order. -/
structure Caller (T : Type) where
  q : tsemfifo T
  accepted : List T
  handed : List T
deriving DecidableEq, Repr

namespace Caller

variable {T : Type}

/-- Bookkeeping after a `put` or `try_put` of `x` ended with `o`; `none` when
the call does not come back to the caller. -/
def after_put (c : Caller T) (x : T) : Outcome Bool T → Option (Caller T)
  | .returned true s _ => some { c with q := s, accepted := c.accepted ++ [x] }
  | .returned false s _ => some { c with q := s }
  | .thrown _ s _ => some { c with q := s }
  | .blocked => none
  | .fault => none

/-- Bookkeeping after a `get` or `try_get` ended with `o`. -/
def after_get (c : Caller T) : Outcome Bool T → Option (Caller T)
  | .returned true s obj => some { c with q := s, handed := c.handed ++ [obj] }
  | .returned false s _ => some { c with q := s }
  | .thrown _ s _ => some { c with q := s }
  | .blocked => none
  | .fault => none

/-- One call, made while no semaphore call fails. -/
def call (c : Caller T) : Op T → Option (Caller T)
  | .put x => c.after_put x (c.q.put SemEnv.ok x)
  | .try_put x => c.after_put x (c.q.try_put SemEnv.ok x)
  | .get obj => c.after_get (c.q.get SemEnv.ok obj)
  | .try_get obj => c.after_get (c.q.try_get SemEnv.ok obj)
  | .release => some { c with q := c.q.release SemEnv.ok }
  | .flush => some { c with q := c.q.flush }
  | .wait_for_empty ms => (c.q.wait_for_empty ms).map fun _ => c
  | .size => some c
  | .capacity => some c

/-- A sequence of calls, one after the other; it ends at the first call that
does not come back. -/
def exec (c : Caller T) : List (Op T) → Caller T
  | [] => c
  | op :: ops =>
    match c.call op with
    | some c1 => exec c1 ops
    | none => c

/-- A sequence of calls that all come back: the caller after the last one,
`none` when one of them does not come back. -/
def run (c : Caller T) : List (Op T) → Option (Caller T)
  | [] => some c
  | op :: ops => (c.call op).bind fun c1 => run c1 ops

/-- The caller right after construction of the queue. -/
def start (s : tsemfifo T) : Caller T := ⟨s, [], []⟩

end Caller

/-- Calls among `put`, `try_put`, `get` and `try_get`. -/
def Op.is_transfer {T : Type} : Op T → Bool
  | .put _ | .try_put _ | .get _ | .try_get _ => true
  | _ => false

/-- Calls among `try_put` and `try_get`. -/
def Op.is_try {T : Type} : Op T → Bool
  | .try_put _ | .try_get _ => true
  | _ => false

/-- Whether a `release()` not yet followed by `flush()` is outstanding after
a call, given whether one was before it. -/
def released_after {T : Type} (b : Bool) : Op T → Bool
  | .release => true
  | .flush => false
  | _ => b

/-- Whether a `release()` not yet followed by `flush()` is outstanding after
the calls, given whether one was before them. -/
def release_pending {T : Type} : Bool → List (Op T) → Bool
  | b, [] => b
  | b, op :: ops => release_pending (released_after b op) ops

/-- Whether the calls respect the usage rule written at `release()` for the
non-blocking accessors: no `try_put` and no `try_get` between a `release()`
and the next `flush()`. -/
def no_try_while_released {T : Type} : Bool → List (Op T) → Bool
  | _, [] => true
  | b, op :: ops => !(b && op.is_try) && no_try_while_released (released_after b op) ops

namespace tsemfifo

variable {T : Type}

/-- The elements held by the queue, oldest first: `_objects` cells of the ring
starting at `_head`. -/
def contents [Inhabited T] (s : tsemfifo T) : List T :=
  (List.range s._objects).map fun i => s._buffer.getD ((s._head + i) % s._buf_len) default

end tsemfifo

namespace tsemfifo

variable {T : Type}

/-- Facts no member function changes: the array has `_buf_len` cells and
`_buf_len` is an `unsigned int`. -/
def Shape (s : tsemfifo T) : Prop :=
  s._buffer.length = s._buf_len ∧ s._buf_len < UINT_RANGE

/-- State of a queue on which no `release()` is outstanding: counters, flags,
semaphore counts and ring indices agree. -/
def Inv (s : tsemfifo T) : Prop :=
  Shape s ∧ s._release = false ∧ s._objects ≤ s._buf_len ∧
  s._full_sem = s._objects ∧ s._empty_sem + s._objects = s._buf_len ∧
  (s._empty = true ↔ s._objects = 0) ∧ s._head ≤ s._buf_len - 1 ∧
  (s._head + s._objects < s._buf_len → s._tail = s._head + s._objects) ∧
  (s._buf_len ≤ s._head + s._objects → s._tail + s._buf_len = s._head + s._objects)

/-- State of a queue used by the rule at `release()`: the element count is
within the capacity, the empty flag tells whether it is 0, and `Inv` holds
while no `release()` is outstanding. -/
def Usable (s : tsemfifo T) : Prop :=
  Shape s ∧ s._objects ≤ s._buf_len ∧ (s._empty = true ↔ s._objects = 0) ∧
  (s._release = false → Inv s)

instance (s : tsemfifo T) : Decidable (Shape s) := by
  unfold Shape; infer_instance

instance (s : tsemfifo T) : Decidable (Inv s) := by
  unfold Inv; infer_instance

instance (s : tsemfifo T) : Decidable (Usable s) := by
  unfold Usable; infer_instance

end tsemfifo

/-- The queue `tsemfifo<unsigned> q(2)` right after construction. -/
def demo_queue : tsemfifo Nat :=
  { _buffer := [0, 0], _head := 0, _tail := 0, _buf_len := 2, _objects := 0,
    _full_sem := 0, _empty_sem := 2, _release := false, _empty := true }

/-- Calls that fill the queue of capacity 2, are refused a third element, and
take the elements out again while the ring indices wrap around. -/
def demo_transfers : List (Op Nat) :=
  [.try_put 1, .try_put 2, .try_put 3, .try_get 0, .put 4, .get 0, .get 0, .try_get 0]

/-- Calls with a `release()` that is followed by `flush()`. -/
def demo_flushed : List (Op Nat) :=
  [.try_put 1, .release, .get 0, .flush, .try_put 5, .size]

/-- Calls that end with a `release()` still outstanding. -/
def demo_released : List (Op Nat) :=
  [.try_put 1, .release, .put 6, .wait_for_empty 10, .capacity]

/-- Calls that abuse a released queue before it is flushed. -/
def demo_abused : List (Op Nat) :=
  [.try_put 1, .try_put 2, .release, .try_put 3, .release, .try_get 0]

/-! ## Quorum functor of `Controller.h` -/

namespace Controller

/-- Entry type `Controller::ComponentInfo`; `inst` stands for the
`std::shared_ptr<Component> instance` member, a handle. -/
structure ComponentInfo where
  inst : Nat
  state : String
  status : String
  active : Bool
deriving DecidableEq, Repr

/-- Call operator of the functor `Controller::NotInState(s)` on an entry
`p` of the `std::map<std::string, ComponentInfo>`; `compare_state` is the
string given to its constructor. -/
def NotInState (compare_state : String) (p : String × ComponentInfo) : Bool :=
  if p.2.active then
    p.2.state != compare_state
  else
    false

end Controller

/-- The queue of capacity 2 holding one element, after `release()`. -/
def demo_released_queue : tsemfifo Nat :=
  tsemfifo.release SemEnv.ok ((Caller.start demo_queue).exec [.try_put 1]).q

/-! ## Predicates used in the proofs -/

/-- The part of the state that a call ending with the given outcome has
kept: array size, capacity and released flag. -/
def Outcome.Frame {R T : Type} (s : tsemfifo T) : Outcome R T → Prop
  | .returned _ s1 _ => s1._buffer.length = s._buffer.length ∧ s1._buf_len = s._buf_len ∧
      s1._release = s._release
  | .thrown _ s1 _ => s1._buffer.length = s._buffer.length ∧ s1._buf_len = s._buf_len ∧
      s1._release = s._release
  | .blocked => True
  | .fault => True

namespace tsemfifo

variable {T : Type}

/-- Ways a `put` or `try_put` of `x` can end on a queue without outstanding
release. -/
def PutPost [Inhabited T] (s : tsemfifo T) (x : T) (o : Outcome Bool T) : Prop :=
  (∃ s1, o = .returned true s1 x ∧ Inv s1 ∧ contents s1 = contents s ++ [x]) ∨
  o = .returned false s x ∨ o = .blocked

/-- Ways a `get` or `try_get` can end on a queue without outstanding release. -/
def GetPost [Inhabited T] (s : tsemfifo T) (obj : T) (o : Outcome Bool T) : Prop :=
  (∃ s1 v, o = .returned true s1 v ∧ Inv s1 ∧ contents s = v :: contents s1) ∨
  o = .returned false s obj ∨ o = .blocked

end tsemfifo

namespace Caller

variable {T : Type}

open tsemfifo

/-- The caller's record agrees with the queue: what was accepted is what was
handed back followed by what the queue still holds. -/
def Fifo [Inhabited T] (c : Caller T) : Prop :=
  c.accepted = c.handed ++ contents c.q

end Caller

/-- Public calls of every kind, with a `release()` that is not flushed. -/
def demo_mixed : List (Op Nat) :=
  [.try_put 1, .put 2, .try_get 0, .wait_for_empty 5, .release, .get 0, .size, .flush,
   .try_put 3, .release, .capacity]

/-- Calls that make the ring indices wrap around and leave one element. -/
def demo_wrapped : List (Op Nat) :=
  [.try_put 1, .try_put 2, .get 0, .put 3, .try_get 0, .flush, .put 4, .put 5, .get 0,
   .try_put 6, .get 0]

/-- Transfers made on a queue of capacity 2 that holds one element: two values
are accepted and two are handed back. -/
def demo_more : List (Op Nat) :=
  [.try_put 8, .get 0, .try_get 0, .try_put 9]

/-- A component map in which no component is active. -/
def demo_inactive : List (String × Controller.ComponentInfo) :=
  [("c1", ⟨1, "Ready", "", false⟩), ("c2", ⟨2, "Created", "", false⟩)]

/-! ## Arithmetic of the counters -/

namespace tsemfifo

variable {T : Type}

theorem uint_pred (n : Nat) (h0 : 0 < n) (h : n < UINT_RANGE) :
    (n + UINT_RANGE - 1) % UINT_RANGE = n - 1 := by
  unfold UINT_RANGE at *; omega

theorem uint_succ (n : Nat) (h : n + 1 < UINT_RANGE) :
    (n + 1) % UINT_RANGE = n + 1 := by
  unfold UINT_RANGE at *; omega

theorem mod_wrap (a n : Nat) (h : a < 2 * n) : a % n = if a < n then a else a - n := by
  split
  · exact Nat.mod_eq_of_lt ‹_›
  · rw [Nat.mod_eq_sub_mod (by omega)]
    exact Nat.mod_eq_of_lt (by omega)

/-! ## One call on a queue without outstanding release -/

/-- With room left, `try_put` returns `true`, keeps the invariant, adds one
to the count and appends the value to the contents. -/
theorem try_put_room [Inhabited T] (s : tsemfifo T) (x : T) (hs : Inv s)
    (h : s._objects < s._buf_len) :
    ∃ s1, try_put SemEnv.ok s x = .returned true s1 x ∧ Inv s1 ∧
      s1._objects = s._objects + 1 ∧ s1._buf_len = s._buf_len ∧
      contents s1 = contents s ++ [x] := by
  obtain ⟨⟨hlen, hU⟩, hrel, hle, hfull, hempty, hflag, hhead, ht1, ht2⟩ := hs
  have hE : 0 < s._empty_sem := by omega
  have htl : s._tail < s._buffer.length := by omega
  have hp := uint_pred s._buf_len (by omega) hU
  have hs1 := uint_succ s._objects (by omega)
  have hs2 := uint_succ s._tail (by omega)
  simp only [try_put, SemEnv.ok, List.head?_nil, sem_trywait, hE, if_true, _put, htl, sem_post,
    hp, hs1, hs2, Outcome.then_true]
  refine ⟨_, rfl, ?_, rfl, rfl, ?_⟩
  · refine ⟨⟨by simpa using hlen, hU⟩, hrel, ?_, ?_, ?_, ?_, hhead, ?_, ?_⟩ <;> dsimp only
    · omega
    · omega
    · omega
    · constructor
      · intro h1; split at h1 <;> simp_all
      · intro h1; omega
    · intro h1; split <;> omega
    · intro h1; split <;> omega
  · simp only [contents, List.range_succ, List.map_append, List.map_cons, List.map_nil]
    congr 1
    · apply List.map_congr_left
      intro i hi
      have hi := List.mem_range.mp hi
      rw [List.getD_eq_getElem?_getD, List.getD_eq_getElem?_getD, List.getElem?_set_ne]
      rw [mod_wrap _ _ (by omega)]
      split <;> omega
    · rw [List.getD_eq_getElem?_getD, mod_wrap _ _ (by omega)]
      have : (if s._head + s._objects < s._buf_len then s._head + s._objects
          else s._head + s._objects - s._buf_len) = s._tail := by split <;> omega
      rw [this, List.getElem?_set_eq_of_lt _ (by omega)]
      rfl

/-- On a full queue `try_put` returns `false` and changes nothing. -/
theorem try_put_full (s : tsemfifo T) (x : T) (hs : Inv s) (h : s._buf_len ≤ s._objects) :
    try_put SemEnv.ok s x = .returned false s x := by
  obtain ⟨-, -, hle, -, hempty, -⟩ := hs
  have hE : s._empty_sem = 0 := by omega
  simp [try_put, SemEnv.ok, sem_trywait, hE]

/-- With room left, `put` does what `try_put` does. -/
theorem put_room (s : tsemfifo T) (x : T) (hs : Inv s) (h : s._objects < s._buf_len) :
    put SemEnv.ok s x = try_put SemEnv.ok s x := by
  obtain ⟨-, hrel, hle, -, hempty, -⟩ := hs
  have hE : 0 < s._empty_sem := by omega
  simp [put, try_put, SemEnv.ok, sem_wait_loop, sem_wait, sem_trywait, hE,
    TCondition.wait_usecs, hrel]

/-- On a full queue `put` does not return. -/
theorem put_full (s : tsemfifo T) (x : T) (hs : Inv s) (h : s._buf_len ≤ s._objects) :
    put SemEnv.ok s x = .blocked := by
  obtain ⟨-, -, hle, -, hempty, -⟩ := hs
  have hE : s._empty_sem = 0 := by omega
  simp [put, SemEnv.ok, sem_wait_loop, sem_wait, hE]

/-- On a queue holding something, `try_get` returns `true` with the oldest
element, keeps the invariant and takes one from the count. -/
theorem try_get_some [Inhabited T] (s : tsemfifo T) (obj : T) (hs : Inv s)
    (h : 0 < s._objects) :
    ∃ s1 v, try_get SemEnv.ok s obj = .returned true s1 v ∧ Inv s1 ∧
      s1._objects + 1 = s._objects ∧ s1._buf_len = s._buf_len ∧
      contents s = v :: contents s1 := by
  obtain ⟨⟨hlen, hU⟩, hrel, hle, hfull, hempty, hflag, hhead, ht1, ht2⟩ := hs
  have hF : 0 < s._full_sem := by omega
  have hhl : s._head < s._buffer.length := by omega
  have hp := uint_pred s._buf_len (by omega) hU
  have hs1 := uint_pred s._objects h (by omega)
  have hs2 := uint_succ s._head (by omega)
  simp only [try_get, SemEnv.ok, List.head?_nil, sem_trywait, hF, if_true, _get,
    List.getElem?_eq_getElem hhl, sem_post, hp, hs1, hs2, Outcome.then_true]
  refine ⟨_, _, rfl, ?_, ?_, rfl, ?_⟩
  · refine ⟨⟨hlen, hU⟩, hrel, ?_, ?_, ?_, ?_, ?_, ?_, ?_⟩ <;> dsimp only
    · omega
    · omega
    · omega
    · constructor
      · intro h1; split at h1
        · assumption
        · have := hflag.mp h1; omega
      · intro h1; simp [h1]
    · split <;> omega
    · intro h1; split at h1 <;> split <;> omega
    · intro h1; split at h1 <;> split <;> omega
  · dsimp only; omega
  · obtain ⟨n, hn⟩ : ∃ n, s._objects = n + 1 := ⟨s._objects - 1, by omega⟩
    simp only [contents, hn, List.range_succ_eq_map, List.map_cons, List.map_map,
      Nat.add_sub_cancel, Nat.add_zero]
    congr 1
    · rw [List.getD_eq_getElem?_getD, Nat.mod_eq_of_lt (by omega),
        List.getElem?_eq_getElem hhl]
      rfl
    · apply List.map_congr_left
      intro i hi
      have hi := List.mem_range.mp hi
      simp only [Function.comp, Nat.succ_eq_add_one]
      congr 1
      by_cases hc : s._head < s._buf_len - 1
      · rw [if_pos hc, mod_wrap _ _ (by omega), mod_wrap _ _ (by omega)]
        split <;> split <;> omega
      · rw [if_neg hc, mod_wrap _ _ (by omega), mod_wrap _ _ (by omega)]
        split <;> split <;> omega

/-- On an empty queue `try_get` returns `false` and changes nothing. -/
theorem try_get_empty (s : tsemfifo T) (obj : T) (hs : Inv s) (h : s._objects = 0) :
    try_get SemEnv.ok s obj = .returned false s obj := by
  obtain ⟨-, -, hle, hfull, -⟩ := hs
  have hF : s._full_sem = 0 := by omega
  simp [try_get, SemEnv.ok, sem_trywait, hF]

/-- On a queue holding something, `get` does what `try_get` does. -/
theorem get_some (s : tsemfifo T) (obj : T) (hs : Inv s) (h : 0 < s._objects) :
    get SemEnv.ok s obj = try_get SemEnv.ok s obj := by
  obtain ⟨-, hrel, hle, hfull, -⟩ := hs
  have hF : 0 < s._full_sem := by omega
  simp [get, try_get, SemEnv.ok, sem_wait_loop, sem_wait, sem_trywait, hF,
    TCondition.wait_usecs, hrel]

/-- On an empty queue `get` does not return. -/
theorem get_empty (s : tsemfifo T) (obj : T) (hs : Inv s) (h : s._objects = 0) :
    get SemEnv.ok s obj = .blocked := by
  obtain ⟨-, -, hle, hfull, -⟩ := hs
  have hF : s._full_sem = 0 := by omega
  simp [get, SemEnv.ok, sem_wait_loop, sem_wait, hF]

end tsemfifo

/-! ## What every call leaves alone -/

namespace tsemfifo

variable {T : Type}

theorem _put_frame (pf : Option Nat) (s : tsemfifo T) (x : T) : (_put pf s x).Frame s := by
  unfold _put sem_post
  split
  · cases pf <;> simp [Outcome.Frame]
  · trivial

theorem _get_frame (pf : Option Nat) (s : tsemfifo T) (x : T) : (_get pf s x).Frame s := by
  unfold _get sem_post
  split
  · trivial
  · cases pf <;> simp [Outcome.Frame]

theorem then_true_frame (s s0 : tsemfifo T) (o : Outcome Unit T) (h : o.Frame s)
    (hl : s._buffer.length = s0._buffer.length) (hb : s._buf_len = s0._buf_len)
    (hr : s._release = s0._release) : o.then_true.Frame s0 := by
  cases o <;> simp_all [Outcome.Frame, Outcome.then_true]

theorem put_frame (env : SemEnv) (s : tsemfifo T) (x : T) : (put env s x).Frame s := by
  unfold put
  split
  · simp [Outcome.Frame]
  · trivial
  · dsimp only
    split
    · simp [Outcome.Frame]
    · exact then_true_frame _ s _ (_put_frame _ _ _) rfl rfl rfl

theorem try_put_frame (env : SemEnv) (s : tsemfifo T) (x : T) :
    (try_put env s x).Frame s := by
  unfold try_put
  split
  · split <;> simp [Outcome.Frame]
  · trivial
  · exact then_true_frame _ s _ (_put_frame _ _ _) rfl rfl rfl

theorem get_frame (env : SemEnv) (s : tsemfifo T) (x : T) : (get env s x).Frame s := by
  unfold get
  split
  · simp [Outcome.Frame]
  · trivial
  · dsimp only
    split
    · simp [Outcome.Frame]
    · exact then_true_frame _ s _ (_get_frame _ _ _) rfl rfl rfl

theorem try_get_frame (env : SemEnv) (s : tsemfifo T) (x : T) :
    (try_get env s x).Frame s := by
  unfold try_get
  split
  · split <;> simp [Outcome.Frame]
  · trivial
  · exact then_true_frame _ s _ (_get_frame _ _ _) rfl rfl rfl

end tsemfifo

namespace Caller

variable {T : Type}

theorem after_put_frame (c c1 : Caller T) (x : T) (o : Outcome Bool T) (s : tsemfifo T)
    (h : o.Frame s) (hc : c.after_put x o = some c1) :
    c1.q._buffer.length = s._buffer.length ∧ c1.q._buf_len = s._buf_len ∧
      c1.q._release = s._release := by
  cases o with
  | returned r s1 obj => cases r <;> simp [after_put] at hc <;> subst hc <;> exact h
  | thrown e s1 obj => simp [after_put] at hc; subst hc; exact h
  | blocked => simp [after_put] at hc
  | fault => simp [after_put] at hc

theorem after_get_frame (c c1 : Caller T) (o : Outcome Bool T) (s : tsemfifo T)
    (h : o.Frame s) (hc : c.after_get o = some c1) :
    c1.q._buffer.length = s._buffer.length ∧ c1.q._buf_len = s._buf_len ∧
      c1.q._release = s._release := by
  cases o with
  | returned r s1 obj => cases r <;> simp [after_get] at hc <;> subst hc <;> exact h
  | thrown e s1 obj => simp [after_get] at hc; subst hc; exact h
  | blocked => simp [after_get] at hc
  | fault => simp [after_get] at hc

/-- Every call that comes back keeps the array size and the capacity, and
only `release()` and `flush()` write the released flag. -/
theorem call_frame (c c1 : Caller T) (op : Op T) (hc : c.call op = some c1) :
    c1.q._buffer.length = c.q._buffer.length ∧ c1.q._buf_len = c.q._buf_len ∧
      c1.q._release = released_after c.q._release op := by
  cases op with
  | put x => exact after_put_frame c c1 x _ c.q (tsemfifo.put_frame _ _ _) hc
  | try_put x => exact after_put_frame c c1 x _ c.q (tsemfifo.try_put_frame _ _ _) hc
  | get x => exact after_get_frame c c1 _ c.q (tsemfifo.get_frame _ _ _) hc
  | try_get x => exact after_get_frame c c1 _ c.q (tsemfifo.try_get_frame _ _ _) hc
  | release =>
    simp only [call, Option.some.injEq] at hc; subst hc
    simp [tsemfifo.release, released_after]
  | flush =>
    simp only [call, Option.some.injEq] at hc; subst hc
    simp [tsemfifo.flush, tsemfifo._create_sem, released_after]
  | wait_for_empty ms =>
    simp only [call, Option.map_eq_some'] at hc
    obtain ⟨_, _, rfl⟩ := hc
    simp [released_after]
  | size => simp only [call, Option.some.injEq] at hc; subst hc; simp [released_after]
  | capacity => simp only [call, Option.some.injEq] at hc; subst hc; simp [released_after]

end Caller

/-! ## Calls on a queue without outstanding release, seen by the caller -/

namespace tsemfifo

variable {T : Type}

theorem try_put_post [Inhabited T] (s : tsemfifo T) (x : T) (hs : Inv s) :
    PutPost s x (try_put SemEnv.ok s x) := by
  by_cases h : s._objects < s._buf_len
  · obtain ⟨s1, h1, h2, -, -, h3⟩ := try_put_room s x hs h
    exact Or.inl ⟨s1, h1, h2, h3⟩
  · exact Or.inr (Or.inl (try_put_full s x hs (by omega)))

theorem put_post [Inhabited T] (s : tsemfifo T) (x : T) (hs : Inv s) :
    PutPost s x (put SemEnv.ok s x) := by
  by_cases h : s._objects < s._buf_len
  · rw [put_room s x hs h]; exact try_put_post s x hs
  · exact Or.inr (Or.inr (put_full s x hs (by omega)))

theorem try_get_post [Inhabited T] (s : tsemfifo T) (obj : T) (hs : Inv s) :
    GetPost s obj (try_get SemEnv.ok s obj) := by
  by_cases h : 0 < s._objects
  · obtain ⟨s1, v, h1, h2, -, -, h3⟩ := try_get_some s obj hs h
    exact Or.inl ⟨s1, v, h1, h2, h3⟩
  · exact Or.inr (Or.inl (try_get_empty s obj hs (by omega)))

theorem get_post [Inhabited T] (s : tsemfifo T) (obj : T) (hs : Inv s) :
    GetPost s obj (get SemEnv.ok s obj) := by
  by_cases h : 0 < s._objects
  · rw [get_some s obj hs h]; exact try_get_post s obj hs
  · exact Or.inr (Or.inr (get_empty s obj hs (by omega)))

/-- After `flush()` the invariant holds, whatever the state was. -/
theorem flush_inv (s : tsemfifo T) (hs : Shape s) : Inv (flush s) := by
  obtain ⟨hlen, hU⟩ := hs
  refine ⟨⟨hlen, hU⟩, rfl, ?_, rfl, ?_, ?_, ?_, ?_, ?_⟩ <;>
    simp [flush, _create_sem]

theorem flush_contents [Inhabited T] (s : tsemfifo T) : contents (flush s) = [] := by
  simp [contents, flush, _create_sem]

/-- The state the constructor leaves. -/
theorem construct_eq [Inhabited T] (size : Int) (s : tsemfifo T)
    (h : construct size = some s) :
    s = ⟨List.replicate size.toNat default, 0, 0, (size % UINT_RANGE).toNat, 0, 0,
      (size % UINT_RANGE).toNat, false, true⟩ := by
  unfold construct at h
  split at h
  · simp at h
  · simp only [Option.some.injEq] at h
    subst h
    rfl

/-- The constructor establishes the invariant, with the requested capacity and
nothing in the queue. -/
theorem construct_inv [Inhabited T] (size : Int) (s : tsemfifo T) (hmax : size ≤ INT_MAX)
    (h : construct size = some s) :
    Inv s ∧ (s._buf_len : Int) = size ∧ s._objects = 0 := by
  unfold construct at h
  split at h
  · simp at h
  · rename_i hneg
    simp only [Option.some.injEq] at h
    subst h
    have hb : ((size % (UINT_RANGE : Int)).toNat : Int) = size := by
      unfold UINT_RANGE; unfold INT_MAX at hmax; omega
    have hb2 : (size % (UINT_RANGE : Int)).toNat = size.toNat := by omega
    have hU : size.toNat < UINT_RANGE := by
      unfold UINT_RANGE; unfold INT_MAX at hmax; omega
    refine ⟨⟨⟨?_, ?_⟩, rfl, ?_, rfl, ?_, ?_, ?_, ?_, ?_⟩, ?_, rfl⟩ <;>
      simp [_create_sem, hb2, hU, hb]
    omega

end tsemfifo

namespace Caller

variable {T : Type}

open tsemfifo

theorem after_put_step [Inhabited T] (c c1 : Caller T) (x : T) (o : Outcome Bool T)
    (h : PutPost c.q x o) (hc : c.after_put x o = some c1) :
    Inv c.q → Inv c1.q ∧ (Fifo c → Fifo c1) := by
  intro hi
  rcases h with ⟨s1, rfl, h1, h2⟩ | rfl | rfl
  · simp only [after_put, Option.some.injEq] at hc; subst hc
    refine ⟨h1, fun hf => ?_⟩
    simp only [Fifo] at hf ⊢
    rw [h2, hf, List.append_assoc]
  · simp only [after_put, Option.some.injEq] at hc; subst hc
    exact ⟨hi, fun hf => hf⟩
  · simp [after_put] at hc

theorem after_get_step [Inhabited T] (c c1 : Caller T) (obj : T) (o : Outcome Bool T)
    (h : GetPost c.q obj o) (hc : c.after_get o = some c1) :
    Inv c.q → Inv c1.q ∧ (Fifo c → Fifo c1) := by
  intro hi
  rcases h with ⟨s1, v, rfl, h1, h2⟩ | rfl | rfl
  · simp only [after_get, Option.some.injEq] at hc; subst hc
    refine ⟨h1, fun hf => ?_⟩
    simp only [Fifo] at hf ⊢
    rw [hf, h2, List.append_assoc, List.singleton_append]
  · simp only [after_get, Option.some.injEq] at hc; subst hc
    exact ⟨hi, fun hf => hf⟩
  · simp [after_get] at hc

/-- A call other than `release()` keeps the invariant; a call that moves no
element other than by `put`/`get` (anything but `flush()`) keeps the record. -/
theorem call_step [Inhabited T] (c c1 : Caller T) (op : Op T) (hi : Inv c.q)
    (hop : op ≠ .release) (hc : c.call op = some c1) :
    Inv c1.q ∧ (op ≠ .flush → Fifo c → Fifo c1) := by
  cases op with
  | put x =>
    have := after_put_step c c1 x _ (put_post c.q x hi) hc hi
    exact ⟨this.1, fun _ => this.2⟩
  | try_put x =>
    have := after_put_step c c1 x _ (try_put_post c.q x hi) hc hi
    exact ⟨this.1, fun _ => this.2⟩
  | get obj =>
    have := after_get_step c c1 obj _ (get_post c.q obj hi) hc hi
    exact ⟨this.1, fun _ => this.2⟩
  | try_get obj =>
    have := after_get_step c c1 obj _ (try_get_post c.q obj hi) hc hi
    exact ⟨this.1, fun _ => this.2⟩
  | release => exact absurd rfl hop
  | flush =>
    simp only [call, Option.some.injEq] at hc; subst hc
    exact ⟨flush_inv _ hi.1, fun h => absurd rfl h⟩
  | wait_for_empty ms =>
    simp only [call, Option.map_eq_some'] at hc
    obtain ⟨_, _, rfl⟩ := hc
    exact ⟨hi, fun _ h => h⟩
  | size => simp only [call, Option.some.injEq] at hc; subst hc; exact ⟨hi, fun _ h => h⟩
  | capacity => simp only [call, Option.some.injEq] at hc; subst hc; exact ⟨hi, fun _ h => h⟩

end Caller

/-! ## Calls on a released queue -/

namespace tsemfifo

variable {T : Type}

/-- While released, `put` only takes a unit of `_empty_sem`, if it gets one. -/
theorem put_released (env : SemEnv) (s : tsemfifo T) (x : T) (h : s._release = true) :
    put env s x =
      match sem_wait_loop env.wait_fail s._empty_sem with
      | .err e => .thrown e s x
      | .blocks => .blocked
      | .ok c => .returned false { s with _empty_sem := c } x := by
  unfold put
  split <;> simp_all [TCondition.wait_usecs]

/-- While released, `get` only takes a unit of `_full_sem`, if it gets one. -/
theorem get_released (env : SemEnv) (s : tsemfifo T) (obj : T) (h : s._release = true) :
    get env s obj =
      match sem_wait_loop env.wait_fail s._full_sem with
      | .err e => .thrown e s obj
      | .blocks => .blocked
      | .ok c => .returned false { s with _full_sem := c } obj := by
  unfold get
  split <;> simp_all [TCondition.wait_usecs]

theorem sem_wait_loop_ok (count : Nat) :
    sem_wait_loop SemEnv.ok.wait_fail count = if 0 < count then .ok (count - 1) else .blocks := by
  simp [SemEnv.ok, sem_wait_loop, sem_wait]

theorem contents_length [Inhabited T] (s : tsemfifo T) : (contents s).length = s._objects := by
  simp [contents]

theorem Inv.usable {s : tsemfifo T} (h : Inv s) : Usable s :=
  ⟨h.1, h.2.2.1, h.2.2.2.2.2.1, fun _ => h⟩

end tsemfifo

namespace Caller

variable {T : Type}

open tsemfifo

/-- A call that is not a `try_put`/`try_get` on a released queue keeps the
queue usable. -/
theorem call_usable [Inhabited T] (c c1 : Caller T) (op : Op T) (hu : Usable c.q)
    (hop : c.q._release = true → op.is_try = false) (hc : c.call op = some c1) :
    Usable c1.q := by
  by_cases hr : c.q._release = true
  · have hnt := hop hr
    obtain ⟨hsh, hle, hfl, -⟩ := hu
    cases op with
    | put x =>
      simp only [call, put_released _ _ _ hr, sem_wait_loop_ok] at hc
      by_cases hpos : 0 < c.q._empty_sem
      · simp only [hpos, if_true, after_put, Option.some.injEq] at hc; subst hc
        exact ⟨hsh, hle, hfl, fun h => by simp [hr] at h⟩
      · simp [hpos, after_put] at hc
    | get obj =>
      simp only [call, get_released _ _ _ hr, sem_wait_loop_ok] at hc
      by_cases hpos : 0 < c.q._full_sem
      · simp only [hpos, if_true, after_get, Option.some.injEq] at hc; subst hc
        exact ⟨hsh, hle, hfl, fun h => by simp [hr] at h⟩
      · simp [hpos, after_get] at hc
    | try_put x => simp [Op.is_try] at hnt
    | try_get obj => simp [Op.is_try] at hnt
    | release =>
      simp only [call, Option.some.injEq] at hc; subst hc
      exact ⟨hsh, hle, hfl, fun h => by simp [tsemfifo.release] at h⟩
    | flush =>
      simp only [call, Option.some.injEq] at hc; subst hc
      exact (flush_inv _ hsh).usable
    | wait_for_empty ms =>
      simp only [call, Option.map_eq_some'] at hc
      obtain ⟨_, _, rfl⟩ := hc
      exact ⟨hsh, hle, hfl, fun h => by simp [hr] at h⟩
    | size =>
      simp only [call, Option.some.injEq] at hc; subst hc
      exact ⟨hsh, hle, hfl, fun h => by simp [hr] at h⟩
    | capacity =>
      simp only [call, Option.some.injEq] at hc; subst hc
      exact ⟨hsh, hle, hfl, fun h => by simp [hr] at h⟩
  · have hf : c.q._release = false := by simpa using hr
    have hi := hu.2.2.2 hf
    by_cases hrel : op = .release
    · subst hrel
      simp only [call, Option.some.injEq] at hc; subst hc
      exact ⟨hi.1, hi.2.2.1, hi.2.2.2.2.2.1, fun h => by simp [tsemfifo.release] at h⟩
    · exact (call_step c c1 op hi hrel hc).1.usable

/-- Calls that all come back keep the array and the capacity, and leave the
released flag as the last `release()`/`flush()` set it; the invariant holds
whenever the flag is down. -/
theorem run_weak [Inhabited T] : ∀ (ops : List (Op T)) (c c1 : Caller T),
    Shape c.q → (c.q._release = false → Inv c.q) → c.run ops = some c1 →
    Shape c1.q ∧ (c1.q._release = false → Inv c1.q) ∧ c1.q._buf_len = c.q._buf_len ∧
      c1.q._release = release_pending c.q._release ops
  | [], c, c1, hs, hi, hr => by
    simp only [run, Option.some.injEq] at hr; subst hr
    exact ⟨hs, hi, rfl, rfl⟩
  | op :: ops, c, c1, hs, hi, hr => by
    simp only [run, Option.bind_eq_some] at hr
    obtain ⟨c2, hc, hr⟩ := hr
    obtain ⟨hl, hb, hrel⟩ := call_frame c c2 op hc
    have hs2 : Shape c2.q := ⟨by rw [hl, hb]; exact hs.1, by rw [hb]; exact hs.2⟩
    have hi2 : c2.q._release = false → Inv c2.q := by
      intro h2
      cases op with
      | release => rw [hrel] at h2; simp [released_after] at h2
      | flush =>
        simp only [call, Option.some.injEq] at hc; subst hc
        exact flush_inv _ hs
      | put x => exact (call_step c c2 _ (hi (by simpa [released_after, h2] using hrel.symm))
          (by simp) hc).1
      | try_put x => exact (call_step c c2 _ (hi (by simpa [released_after, h2] using hrel.symm))
          (by simp) hc).1
      | get x => exact (call_step c c2 _ (hi (by simpa [released_after, h2] using hrel.symm))
          (by simp) hc).1
      | try_get x => exact (call_step c c2 _ (hi (by simpa [released_after, h2] using hrel.symm))
          (by simp) hc).1
      | wait_for_empty x => exact (call_step c c2 _
          (hi (by simpa [released_after, h2] using hrel.symm)) (by simp) hc).1
      | size => exact (call_step c c2 _ (hi (by simpa [released_after, h2] using hrel.symm))
          (by simp) hc).1
      | capacity => exact (call_step c c2 _ (hi (by simpa [released_after, h2] using hrel.symm))
          (by simp) hc).1
    obtain ⟨h1, h2, h3, h4⟩ := run_weak ops c2 c1 hs2 hi2 hr
    exact ⟨h1, h2, by rw [h3, hb], by rw [h4, hrel]; rfl⟩

/-- Calls that respect the rule at `release()` keep the queue usable. -/
theorem run_usable [Inhabited T] : ∀ (ops : List (Op T)) (c c1 : Caller T),
    Usable c.q → no_try_while_released c.q._release ops = true → c.run ops = some c1 →
    Usable c1.q
  | [], c, c1, hu, _, hr => by
    simp only [run, Option.some.injEq] at hr; subst hr; exact hu
  | op :: ops, c, c1, hu, hd, hr => by
    simp only [run, Option.bind_eq_some] at hr
    obtain ⟨c2, hc, hr⟩ := hr
    simp only [no_try_while_released, Bool.and_eq_true, Bool.not_eq_true',
      Bool.and_eq_false_imp] at hd
    have hu2 := call_usable c c2 op hu hd.1 hc
    refine run_usable ops c2 c1 hu2 ?_ hr
    rw [(call_frame c c2 op hc).2.2]
    exact hd.2

/-- Calls among `put`, `try_put`, `get`, `try_get` keep the invariant and the
caller's record, up to the first one that does not come back. -/
theorem exec_fifo [Inhabited T] : ∀ (ops : List (Op T)) (c : Caller T),
    (∀ op ∈ ops, op.is_transfer = true) → Inv c.q → Fifo c →
    Inv (c.exec ops).q ∧ Fifo (c.exec ops)
  | [], c, _, hi, hf => ⟨hi, hf⟩
  | op :: ops, c, hops, hi, hf => by
    simp only [exec]
    split
    · rename_i c2 hc
      have hop := hops op (List.mem_cons_self _ _)
      have hne : op ≠ .release ∧ op ≠ .flush := by
        constructor <;> rintro rfl <;> simp [Op.is_transfer] at hop
      obtain ⟨h1, h2⟩ := call_step c c2 op hi hne.1 hc
      exact exec_fifo ops c2 (fun o ho => hops o (List.mem_cons_of_mem _ ho)) h1 (h2 hne.2 hf)
    · exact ⟨hi, hf⟩

end Caller

/-! ## Filling a queue with consecutive `try_put` calls -/

namespace Caller

variable {T : Type}

open tsemfifo

/-- As many consecutive `try_put` calls as there are free slots all return
`true`. -/
theorem run_try_puts [Inhabited T] : ∀ (xs : List T) (c : Caller T),
    Inv c.q → c.q._objects + xs.length ≤ c.q._buf_len →
    ∃ c1, c.run (xs.map Op.try_put) = some c1 ∧ c1.accepted = c.accepted ++ xs ∧
      Inv c1.q ∧ c1.q._objects = c.q._objects + xs.length ∧ c1.q._buf_len = c.q._buf_len
  | [], c, hi, _ => ⟨c, rfl, by simp, hi, rfl, rfl⟩
  | x :: xs, c, hi, hn => by
    simp only [List.length_cons] at hn
    obtain ⟨s1, h1, h2, h3, h4, -⟩ := try_put_room c.q x hi (by omega)
    obtain ⟨c1, k1, k2, k3, k4, k5⟩ :=
      run_try_puts xs { c with q := s1, accepted := c.accepted ++ [x] } h2
        (by simp only [h3, h4]; omega)
    refine ⟨c1, ?_, ?_, k3, ?_, ?_⟩
    · simp only [List.map_cons, run, call, h1, after_put, Option.some_bind]
      exact k1
    · rw [k2]; simp
    · rw [k4]; simp only [h3, List.length_cons]; omega
    · rw [k5]; exact h4

end Caller

/-! ## The queue: claims -/

namespace Caller

variable {T : Type}

open tsemfifo

/-- The state after calls that all came back and left no `release()`
outstanding satisfies the invariant. -/
theorem run_inv [Inhabited T] (size : Int) (s0 : tsemfifo T) (ops : List (Op T))
    (c : Caller T) (hmax : size ≤ INT_MAX) (h0 : construct size = some s0)
    (hrun : (start s0).run ops = some c) (hrel : release_pending false ops = false) :
    Inv c.q := by
  obtain ⟨hi, -, -⟩ := construct_inv size s0 hmax h0
  obtain ⟨-, h2, -, h4⟩ := run_weak ops (start s0) c hi.1 (fun _ => hi) hrun
  apply h2
  rw [h4]
  have : (start s0).q._release = false := hi.2.1
  rw [this]; exact hrel

/-- The state after calls that all came back and respect the rule at
`release()` is usable. -/
theorem run_disciplined [Inhabited T] (size : Int) (s0 : tsemfifo T) (ops : List (Op T))
    (c : Caller T) (hmax : size ≤ INT_MAX) (h0 : construct size = some s0)
    (hrun : (start s0).run ops = some c) (hd : no_try_while_released false ops = true) :
    Usable c.q := by
  obtain ⟨hi, -, -⟩ := construct_inv size s0 hmax h0
  refine run_usable ops (start s0) c hi.usable ?_ hrun
  have : (start s0).q._release = false := hi.2.1
  rw [this]; exact hd

end Caller

namespace tsemfifo

variable {T : Type}

/-- C1 (FIFO order).  On a queue constructed with any capacity `N` an `int` can
hold (`N ≥ 1`, and `N = 0` as well), after any sequence of
`put`/`try_put`/`get`/`try_get` calls made by one caller, up to the first call
that does not come back: the values handed back by the successful gets are a
prefix of the values accepted by the successful puts, both in call order, and
the accepted values are exactly the handed ones followed by what the queue
still holds, oldest first. -/
theorem fifo_order [Inhabited T] (N : Int) (s0 : tsemfifo T) (ops : List (Op T))
    (hmax : N ≤ INT_MAX) (h0 : construct N = some s0)
    (hops : ∀ op ∈ ops, op.is_transfer = true) :
    ((Caller.start s0).exec ops).handed <+: ((Caller.start s0).exec ops).accepted ∧
    ((Caller.start s0).exec ops).accepted =
      ((Caller.start s0).exec ops).handed ++ contents ((Caller.start s0).exec ops).q ∧
    (contents ((Caller.start s0).exec ops).q).length = ((Caller.start s0).exec ops).q.size := by
  obtain ⟨hi, -, hz⟩ := construct_inv N s0 hmax h0
  have hf : (Caller.start s0).Fifo := by
    simp [Caller.Fifo, Caller.start, contents, hz]
  obtain ⟨-, h2⟩ := Caller.exec_fifo ops (Caller.start s0) hops hi hf
  exact ⟨⟨_, h2.symm⟩, h2, contents_length _⟩

/-- Witness of C1 on the queue of capacity 2 and `demo_transfers`: three
values are accepted and handed back in the same order. -/
theorem fifo_order_witness :
    (2 : Int) ≤ INT_MAX ∧ construct (2 : Int) = some demo_queue ∧
    (∀ op ∈ demo_transfers, op.is_transfer = true) ∧
    (((Caller.start demo_queue).exec demo_transfers).handed <+:
        ((Caller.start demo_queue).exec demo_transfers).accepted ∧
      ((Caller.start demo_queue).exec demo_transfers).accepted =
        ((Caller.start demo_queue).exec demo_transfers).handed ++
          contents ((Caller.start demo_queue).exec demo_transfers).q ∧
      (contents ((Caller.start demo_queue).exec demo_transfers).q).length =
        ((Caller.start demo_queue).exec demo_transfers).q.size) ∧
    ((Caller.start demo_queue).exec demo_transfers).handed = [1, 2, 4] :=
  ⟨by decide, by with_unfolding_all decide, by decide,
   fifo_order 2 demo_queue demo_transfers (by decide) (by with_unfolding_all decide) (by decide),
   by with_unfolding_all decide⟩

/-- C2 (`try_put` contract).  In every state reached from construction by
calls that all came back, with no `release()` since the last `flush()`:
`try_put(x)` returns, it returns `true` exactly when `size() < capacity()`;
then `size()` grows by one, the capacity stays and `x` is the newest element;
when it returns `false` the state is unchanged. -/
theorem try_put_contract [Inhabited T] (N : Int) (s0 : tsemfifo T) (ops : List (Op T))
    (c : Caller T) (x : T) (hmax : N ≤ INT_MAX) (h0 : construct N = some s0)
    (hrun : (Caller.start s0).run ops = some c) (hrel : release_pending false ops = false) :
    ∃ r s1, try_put SemEnv.ok c.q x = .returned r s1 x ∧
      (r = true ↔ c.q.size < c.q.capacity) ∧
      (r = true → s1.size = c.q.size + 1 ∧ s1.capacity = c.q.capacity ∧
        contents s1 = contents c.q ++ [x]) ∧
      (r = false → s1 = c.q) := by
  have hi := Caller.run_inv N s0 ops c hmax h0 hrun hrel
  by_cases h : c.q._objects < c.q._buf_len
  · obtain ⟨s1, h1, -, h3, h4, h5⟩ := try_put_room c.q x hi h
    exact ⟨true, s1, h1, by simpa [size, capacity] using h, fun _ => ⟨h3, h4, h5⟩,
      fun hf => by simp at hf⟩
  · exact ⟨false, c.q, try_put_full c.q x hi (by omega), by simpa [size, capacity] using h,
      fun hf => by simp at hf, fun _ => rfl⟩

/-- Witness of C2 after `demo_flushed`, a sequence with a flushed
`release()`. -/
theorem try_put_contract_witness :
    (2 : Int) ≤ INT_MAX ∧ construct (2 : Int) = some demo_queue ∧
    (Caller.start demo_queue).run demo_flushed =
      some ((Caller.start demo_queue).exec demo_flushed) ∧
    release_pending false demo_flushed = false ∧
    ∃ r s1, try_put SemEnv.ok ((Caller.start demo_queue).exec demo_flushed).q 9 =
        .returned r s1 9 ∧
      (r = true ↔ ((Caller.start demo_queue).exec demo_flushed).q.size <
        ((Caller.start demo_queue).exec demo_flushed).q.capacity) ∧
      (r = true → s1.size = ((Caller.start demo_queue).exec demo_flushed).q.size + 1 ∧
        s1.capacity = ((Caller.start demo_queue).exec demo_flushed).q.capacity ∧
        contents s1 = contents ((Caller.start demo_queue).exec demo_flushed).q ++ [9]) ∧
      (r = false → s1 = ((Caller.start demo_queue).exec demo_flushed).q) :=
  ⟨by decide, by with_unfolding_all decide, by with_unfolding_all decide, by decide,
   try_put_contract 2 demo_queue demo_flushed _ 9 (by decide) (by with_unfolding_all decide)
     (by with_unfolding_all decide) (by decide)⟩

/-- C3 (`try_get` contract).  In every state reached from construction by
calls that all came back, with no `release()` since the last `flush()`:
`try_get(obj)` returns, it returns `true` exactly when `size() > 0`; then `obj`
holds the oldest element and `size()` shrinks by one; when it returns `false`
`obj` and the state are unchanged. -/
theorem try_get_contract [Inhabited T] (N : Int) (s0 : tsemfifo T) (ops : List (Op T))
    (c : Caller T) (obj : T) (hmax : N ≤ INT_MAX) (h0 : construct N = some s0)
    (hrun : (Caller.start s0).run ops = some c) (hrel : release_pending false ops = false) :
    ∃ r s1 v, try_get SemEnv.ok c.q obj = .returned r s1 v ∧
      (r = true ↔ 0 < c.q.size) ∧
      (r = true → contents c.q = v :: contents s1 ∧ s1.size + 1 = c.q.size ∧
        s1.capacity = c.q.capacity) ∧
      (r = false → v = obj ∧ s1 = c.q) := by
  have hi := Caller.run_inv N s0 ops c hmax h0 hrun hrel
  by_cases h : 0 < c.q._objects
  · obtain ⟨s1, v, h1, -, h3, h4, h5⟩ := try_get_some c.q obj hi h
    exact ⟨true, s1, v, h1, by simpa [size] using h, fun _ => ⟨h5, h3, h4⟩,
      fun hf => by simp at hf⟩
  · exact ⟨false, c.q, obj, try_get_empty c.q obj hi (by omega), by simpa [size] using h,
      fun hf => by simp at hf, fun _ => ⟨rfl, rfl⟩⟩

/-- Witness of C3 after `demo_flushed`. -/
theorem try_get_contract_witness :
    (2 : Int) ≤ INT_MAX ∧ construct (2 : Int) = some demo_queue ∧
    (Caller.start demo_queue).run demo_flushed =
      some ((Caller.start demo_queue).exec demo_flushed) ∧
    release_pending false demo_flushed = false ∧
    ∃ r s1 v, try_get SemEnv.ok ((Caller.start demo_queue).exec demo_flushed).q 0 =
        .returned r s1 v ∧
      (r = true ↔ 0 < ((Caller.start demo_queue).exec demo_flushed).q.size) ∧
      (r = true → contents ((Caller.start demo_queue).exec demo_flushed).q = v :: contents s1 ∧
        s1.size + 1 = ((Caller.start demo_queue).exec demo_flushed).q.size ∧
        s1.capacity = ((Caller.start demo_queue).exec demo_flushed).q.capacity) ∧
      (r = false → v = 0 ∧ s1 = ((Caller.start demo_queue).exec demo_flushed).q) :=
  ⟨by decide, by with_unfolding_all decide, by with_unfolding_all decide, by decide,
   try_get_contract 2 demo_queue demo_flushed _ 0 (by decide) (by with_unfolding_all decide)
     (by with_unfolding_all decide) (by decide)⟩

end tsemfifo

namespace tsemfifo

variable {T : Type}

/-- Counterexample to C4 as stated: on the queue of capacity 2, `try_put`
twice, `release()`, `try_put` again all come back and leave `size() == 3`. -/
theorem capacity_bound_fails :
    construct (2 : Int) = some demo_queue ∧
    ((Caller.start demo_queue).run [.try_put 1, .try_put 2, .release, .try_put 3]).map
      (fun c => (c.q.size, c.q.capacity)) = some (3, 2) :=
  ⟨by with_unfolding_all decide, by with_unfolding_all decide⟩

/-- C4 (capacity bound), amended.  `size() ≤ capacity()` in every state
reached from the constructor by public calls that all came back, provided no
`try_put` and no `try_get` is made between a `release()` and the next
`flush()`. -/
theorem capacity_bound [Inhabited T] (N : Int) (s0 : tsemfifo T) (ops : List (Op T))
    (c : Caller T) (hmax : N ≤ INT_MAX) (h0 : construct N = some s0)
    (hrun : (Caller.start s0).run ops = some c)
    (hd : no_try_while_released false ops = true) :
    0 ≤ c.q.size ∧ c.q.size ≤ c.q.capacity :=
  ⟨Nat.zero_le _, (Caller.run_disciplined N s0 ops c hmax h0 hrun hd).2.1⟩

/-- Witness of the amended C4 after `demo_released`, which ends with a
`release()` outstanding. -/
theorem capacity_bound_witness :
    (2 : Int) ≤ INT_MAX ∧ construct (2 : Int) = some demo_queue ∧
    (Caller.start demo_queue).run demo_released =
      some ((Caller.start demo_queue).exec demo_released) ∧
    no_try_while_released false demo_released = true ∧
    (0 ≤ ((Caller.start demo_queue).exec demo_released).q.size ∧
      ((Caller.start demo_queue).exec demo_released).q.size ≤
        ((Caller.start demo_queue).exec demo_released).q.capacity) :=
  ⟨by decide, by with_unfolding_all decide, by with_unfolding_all decide, by decide,
   capacity_bound 2 demo_queue demo_released _ (by decide) (by with_unfolding_all decide)
     (by with_unfolding_all decide) (by decide)⟩

/-- Counterexample to C5 as stated: on the queue of capacity 2, `release()`
followed by `try_get` comes back with the empty flag up and the element count
at `2^32 - 1`. -/
theorem empty_flag_fails :
    construct (2 : Int) = some demo_queue ∧
    ((Caller.start demo_queue).run [.release, .try_get 0]).map
      (fun c => (c.q._empty, c.q._objects)) = some (true, 4294967295) :=
  ⟨by with_unfolding_all decide, by with_unfolding_all rfl⟩

/-- C5 (empty flag), amended.  The value of `_empty` is `true` exactly when
`_objects` is 0 in every state reached from the constructor by public calls
that all came back, provided no `try_put` and no `try_get` is made between a
`release()` and the next `flush()`. -/
theorem empty_flag_iff [Inhabited T] (N : Int) (s0 : tsemfifo T) (ops : List (Op T))
    (c : Caller T) (hmax : N ≤ INT_MAX) (h0 : construct N = some s0)
    (hrun : (Caller.start s0).run ops = some c)
    (hd : no_try_while_released false ops = true) :
    c.q._empty = true ↔ c.q._objects = 0 :=
  (Caller.run_disciplined N s0 ops c hmax h0 hrun hd).2.2.1

/-- Witness of the amended C5 after `demo_released`. -/
theorem empty_flag_iff_witness :
    (2 : Int) ≤ INT_MAX ∧ construct (2 : Int) = some demo_queue ∧
    (Caller.start demo_queue).run demo_released =
      some ((Caller.start demo_queue).exec demo_released) ∧
    no_try_while_released false demo_released = true ∧
    (((Caller.start demo_queue).exec demo_released).q._empty = true ↔
      ((Caller.start demo_queue).exec demo_released).q._objects = 0) :=
  ⟨by decide, by with_unfolding_all decide, by with_unfolding_all decide, by decide,
   empty_flag_iff 2 demo_queue demo_released _ (by decide) (by with_unfolding_all decide)
     (by with_unfolding_all decide) (by decide)⟩

end tsemfifo

namespace tsemfifo

variable {T : Type}

/-- C6 (`flush` re-initialises).  From every state reached from the constructor
by public calls that all came back, released or full included, `flush()`
gives `size() == 0`, released flag down, empty flag up, the same capacity,
`_full_sem` at 0 and `_empty_sem` at the capacity: the constructed state but
for the stale array cells.  There `try_get` returns `false`, `capacity()`
consecutive `try_put` calls all return `true` and the next one returns
`false`. -/
theorem flush_reinitialises [Inhabited T] (N : Int) (s0 : tsemfifo T) (ops : List (Op T))
    (c : Caller T) (xs : List T) (x obj : T) (hmax : N ≤ INT_MAX)
    (h0 : construct N = some s0) (hrun : (Caller.start s0).run ops = some c)
    (hxs : xs.length = c.q.capacity) :
    ((flush c.q).size = 0 ∧ (flush c.q)._release = false ∧ (flush c.q)._empty = true ∧
      (flush c.q).capacity = c.q.capacity ∧ (flush c.q)._full_sem = 0 ∧
      (flush c.q)._empty_sem = c.q.capacity) ∧
    flush c.q = { s0 with _buffer := c.q._buffer } ∧
    try_get SemEnv.ok (flush c.q) obj = .returned false (flush c.q) obj ∧
    ∃ c1, (Caller.start (flush c.q)).run (xs.map Op.try_put) = some c1 ∧
      c1.accepted = xs ∧ try_put SemEnv.ok c1.q x = .returned false c1.q x := by
  obtain ⟨hi, hb, hz⟩ := construct_inv N s0 hmax h0
  obtain ⟨hsh, -, hcap, -⟩ := Caller.run_weak ops (Caller.start s0) c hi.1 (fun _ => hi) hrun
  have hfi := flush_inv c.q hsh
  refine ⟨⟨rfl, rfl, rfl, rfl, rfl, rfl⟩, ?_, try_get_empty _ obj hfi rfl, ?_⟩
  · have hcap : c.q._buf_len = s0._buf_len := hcap
    have hfl : flush c.q =
        ⟨c.q._buffer, 0, 0, c.q._buf_len, 0, 0, c.q._buf_len, false, true⟩ := rfl
    rw [hfl, hcap, construct_eq N s0 h0]
  · obtain ⟨c1, k1, k2, k3, k4, k5⟩ :=
      Caller.run_try_puts xs (Caller.start (flush c.q)) hfi
        (by
          have : (flush c.q)._objects = 0 := rfl
          have : (flush c.q)._buf_len = c.q._buf_len := rfl
          simp only [Caller.start, capacity] at *; omega)
    refine ⟨c1, k1, by simpa [Caller.start] using k2, try_put_full c1.q x k3 ?_⟩
    have : (flush c.q)._objects = 0 := rfl
    have : (flush c.q)._buf_len = c.q._buf_len := rfl
    simp only [Caller.start, capacity] at *; omega

/-- Witness of C6 after `demo_abused`, which leaves the queue released and
over-full. -/
theorem flush_reinitialises_witness :
    (2 : Int) ≤ INT_MAX ∧ construct (2 : Int) = some demo_queue ∧
    (Caller.start demo_queue).run demo_abused =
      some ((Caller.start demo_queue).exec demo_abused) ∧
    [7, 8].length = ((Caller.start demo_queue).exec demo_abused).q.capacity ∧
    ((Caller.start demo_queue).exec demo_abused).q._release = true ∧
    (((flush ((Caller.start demo_queue).exec demo_abused).q).size = 0 ∧
        (flush ((Caller.start demo_queue).exec demo_abused).q)._release = false ∧
        (flush ((Caller.start demo_queue).exec demo_abused).q)._empty = true ∧
        (flush ((Caller.start demo_queue).exec demo_abused).q).capacity =
          ((Caller.start demo_queue).exec demo_abused).q.capacity ∧
        (flush ((Caller.start demo_queue).exec demo_abused).q)._full_sem = 0 ∧
        (flush ((Caller.start demo_queue).exec demo_abused).q)._empty_sem =
          ((Caller.start demo_queue).exec demo_abused).q.capacity) ∧
      flush ((Caller.start demo_queue).exec demo_abused).q =
        { demo_queue with _buffer := ((Caller.start demo_queue).exec demo_abused).q._buffer } ∧
      try_get SemEnv.ok (flush ((Caller.start demo_queue).exec demo_abused).q) 0 =
        .returned false (flush ((Caller.start demo_queue).exec demo_abused).q) 0 ∧
      ∃ c1, (Caller.start (flush ((Caller.start demo_queue).exec demo_abused).q)).run
          ([7, 8].map Op.try_put) = some c1 ∧
        c1.accepted = [7, 8] ∧ try_put SemEnv.ok c1.q 9 = .returned false c1.q 9) :=
  ⟨by decide, by with_unfolding_all decide, by with_unfolding_all decide,
   by with_unfolding_all decide, by with_unfolding_all decide,
   flush_reinitialises 2 demo_queue demo_abused _ [7, 8] 9 0 (by decide)
     (by with_unfolding_all decide) (by with_unfolding_all decide)
     (by with_unfolding_all decide)⟩

/-- C7 (released `put`/`get` return `false`).  In every state with the
released flag up, whatever the queue holds and whatever interruptions the
wait meets: a `put(x)` whose semaphore wait ends returns `false` and a
`get(obj)` whose semaphore wait ends returns `false`, neither throws, and the
only member written is the count of the semaphore waited on, so the array,
`_head`, `_tail`, `size()` and `obj` are as before.  With a unit on the
semaphore and no interruption the wait does end. -/
theorem released_put_get_false (env : SemEnv) (s : tsemfifo T) (x obj : T)
    (h : s._release = true) :
    (∀ n, sem_wait_loop env.wait_fail s._empty_sem = .ok n →
      put env s x = .returned false { s with _empty_sem := n } x) ∧
    (∀ n, sem_wait_loop env.wait_fail s._full_sem = .ok n →
      get env s obj = .returned false { s with _full_sem := n } obj) ∧
    (0 < s._empty_sem →
      put SemEnv.ok s x = .returned false { s with _empty_sem := s._empty_sem - 1 } x) ∧
    (0 < s._full_sem →
      get SemEnv.ok s obj = .returned false { s with _full_sem := s._full_sem - 1 } obj) := by
  refine ⟨fun n hn => ?_, fun n hn => ?_, fun hp => ?_, fun hp => ?_⟩
  · rw [put_released env s x h, hn]
  · rw [get_released env s obj h, hn]
  · rw [put_released _ s x h, sem_wait_loop_ok, if_pos hp]
  · rw [get_released _ s obj h, sem_wait_loop_ok, if_pos hp]

/-- Witness of C7 on the queue of capacity 2 holding one element, after
`release()`, with one interrupted wait. -/
theorem released_put_get_false_witness :
    demo_released_queue._release = true ∧
    ((∀ n, sem_wait_loop [EINTR] demo_released_queue._empty_sem = .ok n →
        put ⟨[EINTR], none⟩ demo_released_queue 5 =
          .returned false { demo_released_queue with _empty_sem := n } 5) ∧
      (∀ n, sem_wait_loop [EINTR] demo_released_queue._full_sem = .ok n →
        get ⟨[EINTR], none⟩ demo_released_queue 0 =
          .returned false { demo_released_queue with _full_sem := n } 0) ∧
      (0 < demo_released_queue._empty_sem →
        put SemEnv.ok demo_released_queue 5 =
          .returned false
            { demo_released_queue with _empty_sem := demo_released_queue._empty_sem - 1 } 5) ∧
      (0 < demo_released_queue._full_sem →
        get SemEnv.ok demo_released_queue 0 =
          .returned false
            { demo_released_queue with _full_sem := demo_released_queue._full_sem - 1 } 0)) ∧
    sem_wait_loop [EINTR] demo_released_queue._empty_sem = .ok 1 ∧
    sem_wait_loop [EINTR] demo_released_queue._full_sem = .ok 1 :=
  ⟨by with_unfolding_all decide,
   released_put_get_false ⟨[EINTR], none⟩ demo_released_queue 5 0 (by with_unfolding_all decide),
   by with_unfolding_all decide, by with_unfolding_all decide⟩

/-- C8 on the code: on the empty queue of capacity 2, after one `release()`
the first `get` returns `false` and the second `get` never returns; on the
full queue, after one `release()` the first `put` returns `false` and the
second `put` never returns.  One `release()` lets one waiter per semaphore
through. -/
theorem release_passes_one_waiter :
    construct (2 : Int) = some demo_queue ∧
    get SemEnv.ok ((Caller.start demo_queue).exec [.release]).q 0 =
      .returned false ((Caller.start demo_queue).exec [.release, .get 0]).q 0 ∧
    ((Caller.start demo_queue).exec [.release, .get 0]).q._release = true ∧
    get SemEnv.ok ((Caller.start demo_queue).exec [.release, .get 0]).q 0 = .blocked ∧
    put SemEnv.ok ((Caller.start demo_queue).exec [.try_put 1, .try_put 2, .release]).q 3 =
      .returned false
        ((Caller.start demo_queue).exec [.try_put 1, .try_put 2, .release, .put 3]).q 3 ∧
    put SemEnv.ok
      ((Caller.start demo_queue).exec [.try_put 1, .try_put 2, .release, .put 3]).q 3 =
      .blocked :=
  ⟨by with_unfolding_all decide, by with_unfolding_all decide, by with_unfolding_all decide,
   by with_unfolding_all decide, by with_unfolding_all decide, by with_unfolding_all decide⟩

/-- Counterexample to C9 as stated: on the queue of capacity 2, after
`release()` and a `try_get`, `wait_for_empty(100)` returns `true` while
`size()` is `2^32 - 1`. -/
theorem wait_for_empty_fails :
    construct (2 : Int) = some demo_queue ∧
    ((Caller.start demo_queue).run [.release, .try_get 0]).map
      (fun c => (wait_for_empty c.q 100, c.q.size)) = some (some true, 4294967295) :=
  ⟨by with_unfolding_all decide, by with_unfolding_all rfl⟩

/-- C9 (`wait_for_empty`), amended.  In every state reached from the
constructor by public calls that all came back, with no `try_put` and no
`try_get` between a `release()` and the next `flush()`, and with no other
thread acting: for `ms ≥ 0`, `wait_for_empty(ms)` returns, and returns `true`
exactly when `size() == 0`; `wait_for_empty(-1)` on an empty queue returns
`true`; a call that comes back leaves the caller and the queue, all members
included, as they were. -/
theorem wait_for_empty_contract [Inhabited T] (N : Int) (s0 : tsemfifo T)
    (ops : List (Op T)) (c : Caller T) (ms : Int) (hmax : N ≤ INT_MAX)
    (h0 : construct N = some s0) (hrun : (Caller.start s0).run ops = some c)
    (hd : no_try_while_released false ops = true) (hms : 0 ≤ ms) :
    (∃ r, wait_for_empty c.q ms = some r ∧ (r = true ↔ c.q.size = 0)) ∧
    (c.q.size = 0 → wait_for_empty c.q (-1) = some true) ∧
    (∀ t c1, c.call (.wait_for_empty t) = some c1 → c1 = c) := by
  obtain ⟨-, -, hfl, -⟩ := Caller.run_disciplined N s0 ops c hmax h0 hrun hd
  have hne : ms ≠ -1 := by omega
  refine ⟨⟨c.q._empty, ?_, hfl⟩, fun hz => ?_, fun t c1 hc => ?_⟩
  · simp [wait_for_empty, hne, TCondition.wait_usecs]
  · simp [wait_for_empty, TCondition.wait_forever, hfl.mpr hz]
  · simp only [Caller.call, Option.map_eq_some'] at hc
    obtain ⟨_, _, rfl⟩ := hc
    rfl

/-- Witness of the amended C9 after `demo_released`, where the queue holds one
element. -/
theorem wait_for_empty_contract_witness :
    (2 : Int) ≤ INT_MAX ∧ construct (2 : Int) = some demo_queue ∧
    (Caller.start demo_queue).run demo_released =
      some ((Caller.start demo_queue).exec demo_released) ∧
    no_try_while_released false demo_released = true ∧ (0 : Int) ≤ 250 ∧
    ((∃ r, wait_for_empty ((Caller.start demo_queue).exec demo_released).q 250 = some r ∧
        (r = true ↔ ((Caller.start demo_queue).exec demo_released).q.size = 0)) ∧
      (((Caller.start demo_queue).exec demo_released).q.size = 0 →
        wait_for_empty ((Caller.start demo_queue).exec demo_released).q (-1) = some true) ∧
      (∀ t c1, ((Caller.start demo_queue).exec demo_released).call (.wait_for_empty t) =
        some c1 → c1 = (Caller.start demo_queue).exec demo_released)) :=
  ⟨by decide, by with_unfolding_all decide, by with_unfolding_all decide, by decide, by decide,
   wait_for_empty_contract 2 demo_queue demo_released _ 250 (by decide)
     (by with_unfolding_all decide) (by with_unfolding_all decide) (by decide) (by decide)⟩

end tsemfifo

/-! ## The quorum functor: claims -/

namespace Controller

/-- C10 (quorum predicate).  For every component map and state string `s`, no
entry satisfies `NotInState(s)` exactly when every entry with `active == true`
has `state == s`; an entry with `active == false` never satisfies
`NotInState(s)`, whatever its state. -/
theorem quorum_predicate (m : List (String × ComponentInfo)) (s : String) :
    (m.any (NotInState s) = false ↔ ∀ p ∈ m, p.2.active = true → p.2.state = s) ∧
    (∀ p : String × ComponentInfo, p.2.active = false → NotInState s p = false) := by
  constructor
  · simp only [List.any_eq_false, NotInState]
    constructor
    · intro h p hp ha
      have := h p hp
      simpa [ha] using this
    · intro h p hp
      by_cases ha : p.2.active = true
      · simp [ha, h p hp ha]
      · simp [ha]
  · intro p hp
    simp [NotInState, hp]

end Controller

/-! ## The queue: capacity, agreement of the accessors, indices and counts -/

namespace Caller

variable {T : Type}

/-- No call writes `_buf_len`. -/
theorem run_buf_len : ∀ (ops : List (Op T)) (c c1 : Caller T),
    c.run ops = some c1 → c1.q._buf_len = c.q._buf_len
  | [], c, c1, hr => by
    simp only [run, Option.some.injEq] at hr; subst hr; rfl
  | op :: ops, c, c1, hr => by
    simp only [run, Option.bind_eq_some] at hr
    obtain ⟨c2, hc, hr⟩ := hr
    rw [run_buf_len ops c2 c1 hr, (call_frame c c2 op hc).2.1]

/-- A `put`/`try_put` changes the element count by the number of values it
adds to the caller's record. -/
theorem after_put_count [Inhabited T] (c c1 : Caller T) (x : T) (o : Outcome Bool T)
    (h : tsemfifo.PutPost c.q x o) (hc : c.after_put x o = some c1) :
    c1.q._objects + c1.handed.length + c.accepted.length =
      c.q._objects + c1.accepted.length + c.handed.length := by
  rcases h with ⟨s1, rfl, -, h2⟩ | rfl | rfl
  · simp only [after_put, Option.some.injEq] at hc; subst hc
    have := congrArg List.length h2
    simp only [tsemfifo.contents_length, List.length_append, List.length_singleton] at this
    simp only [List.length_append, List.length_singleton]
    omega
  · simp only [after_put, Option.some.injEq] at hc; subst hc
    dsimp only
    omega
  · simp [after_put] at hc

/-- A `get`/`try_get` changes the element count by the number of values it
adds to the caller's record. -/
theorem after_get_count [Inhabited T] (c c1 : Caller T) (obj : T) (o : Outcome Bool T)
    (h : tsemfifo.GetPost c.q obj o) (hc : c.after_get o = some c1) :
    c1.q._objects + c1.handed.length + c.accepted.length =
      c.q._objects + c1.accepted.length + c.handed.length := by
  rcases h with ⟨s1, v, rfl, -, h2⟩ | rfl | rfl
  · simp only [after_get, Option.some.injEq] at hc; subst hc
    have := congrArg List.length h2
    simp only [tsemfifo.contents_length, List.length_cons] at this
    simp only [List.length_append, List.length_singleton]
    omega
  · simp only [after_get, Option.some.injEq] at hc; subst hc
    dsimp only
    omega
  · simp [after_get] at hc

/-- Over calls among `put`, `try_put`, `get`, `try_get` that all come back, on
a queue without outstanding release, the element count moves by the number of
values accepted minus the number of values handed back. -/
theorem run_count [Inhabited T] : ∀ (ops : List (Op T)) (c c1 : Caller T),
    tsemfifo.Inv c.q → (∀ op ∈ ops, op.is_transfer = true) → c.run ops = some c1 →
    c1.q._objects + c1.handed.length + c.accepted.length =
      c.q._objects + c1.accepted.length + c.handed.length
  | [], c, c1, _, _, hr => by
    simp only [run, Option.some.injEq] at hr; subst hr; omega
  | op :: ops, c, c1, hi, hops, hr => by
    simp only [run, Option.bind_eq_some] at hr
    obtain ⟨c2, hc, hr⟩ := hr
    have hop := hops op (List.mem_cons_self _ _)
    have hne : op ≠ .release := by rintro rfl; simp [Op.is_transfer] at hop
    have hi2 := (call_step c c2 op hi hne hc).1
    have h2 := run_count ops c2 c1 hi2 (fun o ho => hops o (List.mem_cons_of_mem _ ho)) hr
    have h1 : c2.q._objects + c2.handed.length + c.accepted.length =
        c.q._objects + c2.accepted.length + c.handed.length := by
      cases op with
      | put x => exact after_put_count c c2 x _ (tsemfifo.put_post c.q x hi) hc
      | try_put x => exact after_put_count c c2 x _ (tsemfifo.try_put_post c.q x hi) hc
      | get obj => exact after_get_count c c2 obj _ (tsemfifo.get_post c.q obj hi) hc
      | try_get obj => exact after_get_count c c2 obj _ (tsemfifo.try_get_post c.q obj hi) hc
      | release => simp [Op.is_transfer] at hop
      | flush => simp [Op.is_transfer] at hop
      | wait_for_empty ms => simp [Op.is_transfer] at hop
      | size => simp [Op.is_transfer] at hop
      | capacity => simp [Op.is_transfer] at hop
    omega

end Caller

namespace tsemfifo

variable {T : Type}

/-- C11 (`capacity()` is fixed, `size()` counts elements).  A queue
constructed with a size `N ≥ 0` that an `int` can hold reports
`capacity() == N` and `size() == 0`; after every sequence `ops` of public
calls that all came back `capacity()` is still `N`, and `size()` and
`capacity()` come back leaving the caller's queue, all members included, as
it was.  In every state `d` reached with no `release()` since the last
`flush()`, `size()` is the number of elements held: the length of the
contents, at most the capacity, and over any further `put`/`try_put`/`get`/
`try_get` calls `more` that all come back it moves by the number of values
accepted minus the number of values handed back. -/
theorem capacity_fixed [Inhabited T] (N : Int) (s0 : tsemfifo T)
    (ops good more : List (Op T)) (c d d1 : Caller T) (hmax : N ≤ INT_MAX)
    (h0 : construct N = some s0) (hrun : (Caller.start s0).run ops = some c)
    (hgood : (Caller.start s0).run good = some d)
    (hrel : release_pending false good = false)
    (hmore : ∀ op ∈ more, op.is_transfer = true)
    (hrun1 : (Caller.start d.q).run more = some d1) :
    ((s0.capacity : Int) = N ∧ s0.size = 0) ∧ (c.q.capacity : Int) = N ∧
    (d.q.size = (contents d.q).length ∧ d.q.size ≤ d.q.capacity ∧
      d1.q.size + d1.handed.length = d.q.size + d1.accepted.length) ∧
    c.call .size = some c ∧ c.call .capacity = some c := by
  obtain ⟨-, hb, hz⟩ := construct_inv N s0 hmax h0
  have hi := Caller.run_inv N s0 good d hmax h0 hgood hrel
  have hcnt := Caller.run_count more (Caller.start d.q) d1 hi hmore hrun1
  refine ⟨⟨hb, hz⟩, ?_, ⟨(contents_length d.q).symm, hi.2.2.1, ?_⟩, rfl, rfl⟩
  · have := Caller.run_buf_len ops (Caller.start s0) c hrun
    simp only [capacity, this]
    exact hb
  · simp only [Caller.start, List.length_nil] at hcnt
    simp only [size]
    omega

/-- Witness of C11: `demo_mixed` uses every public call; `demo_wrapped` leaves
one element in the queue and `demo_more` then has two values accepted and two
handed back. -/
theorem capacity_fixed_witness :
    (2 : Int) ≤ INT_MAX ∧ construct (2 : Int) = some demo_queue ∧
    (Caller.start demo_queue).run demo_mixed =
      some ((Caller.start demo_queue).exec demo_mixed) ∧
    (Caller.start demo_queue).run demo_wrapped =
      some ((Caller.start demo_queue).exec demo_wrapped) ∧
    release_pending false demo_wrapped = false ∧
    (∀ op ∈ demo_more, op.is_transfer = true) ∧
    (Caller.start ((Caller.start demo_queue).exec demo_wrapped).q).run demo_more =
      some ((Caller.start ((Caller.start demo_queue).exec demo_wrapped).q).exec demo_more) ∧
    (((demo_queue.capacity : Int) = 2 ∧ demo_queue.size = 0) ∧
      (((Caller.start demo_queue).exec demo_mixed).q.capacity : Int) = 2 ∧
      (((Caller.start demo_queue).exec demo_wrapped).q.size =
          (contents ((Caller.start demo_queue).exec demo_wrapped).q).length ∧
        ((Caller.start demo_queue).exec demo_wrapped).q.size ≤
          ((Caller.start demo_queue).exec demo_wrapped).q.capacity ∧
        ((Caller.start ((Caller.start demo_queue).exec demo_wrapped).q).exec demo_more).q.size +
          ((Caller.start ((Caller.start demo_queue).exec demo_wrapped).q).exec
            demo_more).handed.length =
          ((Caller.start demo_queue).exec demo_wrapped).q.size +
            ((Caller.start ((Caller.start demo_queue).exec demo_wrapped).q).exec
              demo_more).accepted.length) ∧
      ((Caller.start demo_queue).exec demo_mixed).call .size =
        some ((Caller.start demo_queue).exec demo_mixed) ∧
      ((Caller.start demo_queue).exec demo_mixed).call .capacity =
        some ((Caller.start demo_queue).exec demo_mixed)) ∧
    ((Caller.start demo_queue).exec demo_wrapped).q.size = 1 ∧
    contents ((Caller.start demo_queue).exec demo_wrapped).q = [6] ∧
    ((Caller.start ((Caller.start demo_queue).exec demo_wrapped).q).exec demo_more).accepted =
      [8, 9] :=
  ⟨by decide, by with_unfolding_all decide, by with_unfolding_all decide,
   by with_unfolding_all decide, by decide, by decide, by with_unfolding_all decide,
   capacity_fixed 2 demo_queue demo_mixed demo_wrapped demo_more _ _ _ (by decide)
     (by with_unfolding_all decide) (by with_unfolding_all decide)
     (by with_unfolding_all decide) (by decide) (by decide) (by with_unfolding_all decide),
   by with_unfolding_all decide, by with_unfolding_all decide, by with_unfolding_all decide⟩

/-- C12 (blocking and non-blocking accessors agree).  In every state reached
from construction by calls that all came back, with no `release()` since the
last `flush()`: if `size() < capacity()` then `put(x)` returns `true` and
leaves the state `try_put(x)` leaves; if `size() > 0` then `get(obj)` returns
`true` with the same `obj` and the same state as `try_get(obj)`. -/
theorem blocking_agrees [Inhabited T] (N : Int) (s0 : tsemfifo T) (ops : List (Op T))
    (c : Caller T) (x obj : T) (hmax : N ≤ INT_MAX) (h0 : construct N = some s0)
    (hrun : (Caller.start s0).run ops = some c) (hrel : release_pending false ops = false) :
    (c.q.size < c.q.capacity → ∃ s1, put SemEnv.ok c.q x = .returned true s1 x ∧
      try_put SemEnv.ok c.q x = .returned true s1 x) ∧
    (0 < c.q.size → ∃ s1 v, get SemEnv.ok c.q obj = .returned true s1 v ∧
      try_get SemEnv.ok c.q obj = .returned true s1 v) := by
  have hi := Caller.run_inv N s0 ops c hmax h0 hrun hrel
  constructor
  · intro h
    obtain ⟨s1, h1, -⟩ := try_put_room c.q x hi h
    exact ⟨s1, by rw [put_room c.q x hi h, h1], h1⟩
  · intro h
    obtain ⟨s1, v, h1, -⟩ := try_get_some c.q obj hi h
    exact ⟨s1, v, by rw [get_some c.q obj hi h, h1], h1⟩

/-- Witness of C12 after `demo_wrapped`, where the queue of capacity 2 holds
one element: both halves apply. -/
theorem blocking_agrees_witness :
    (2 : Int) ≤ INT_MAX ∧ construct (2 : Int) = some demo_queue ∧
    (Caller.start demo_queue).run demo_wrapped =
      some ((Caller.start demo_queue).exec demo_wrapped) ∧
    release_pending false demo_wrapped = false ∧
    ((Caller.start demo_queue).exec demo_wrapped).q.size = 1 ∧
    ((((Caller.start demo_queue).exec demo_wrapped).q.size <
        ((Caller.start demo_queue).exec demo_wrapped).q.capacity →
      ∃ s1, put SemEnv.ok ((Caller.start demo_queue).exec demo_wrapped).q 7 =
          .returned true s1 7 ∧
        try_put SemEnv.ok ((Caller.start demo_queue).exec demo_wrapped).q 7 =
          .returned true s1 7) ∧
      (0 < ((Caller.start demo_queue).exec demo_wrapped).q.size →
      ∃ s1 v, get SemEnv.ok ((Caller.start demo_queue).exec demo_wrapped).q 0 =
          .returned true s1 v ∧
        try_get SemEnv.ok ((Caller.start demo_queue).exec demo_wrapped).q 0 =
          .returned true s1 v)) :=
  ⟨by decide, by with_unfolding_all decide, by with_unfolding_all decide, by decide,
   by with_unfolding_all decide,
   blocking_agrees 2 demo_queue demo_wrapped _ 7 0 (by decide) (by with_unfolding_all decide)
     (by with_unfolding_all decide) (by decide)⟩

end tsemfifo

namespace tsemfifo

variable {T : Type}

/-- With the invariant and a capacity of at least 1 both indices are inside
the array and `_tail` is `_head + _objects` modulo the capacity. -/
theorem Inv.indices {s : tsemfifo T} (h : Inv s) (hN : 1 ≤ s._buf_len) :
    s._head < s._buf_len ∧ s._tail < s._buf_len ∧
    s._tail = (s._head + s._objects) % s._buf_len ∧
    s._head < s._buffer.length ∧ s._tail < s._buffer.length := by
  obtain ⟨⟨hlen, -⟩, -, hle, -, -, -, hhead, ht1, ht2⟩ := h
  have hh : s._head < s._buf_len := by omega
  have ht : s._tail < s._buf_len := by
    by_cases hlt : s._head + s._objects < s._buf_len
    · have := ht1 hlt; omega
    · have := ht2 (by omega); omega
  refine ⟨hh, ht, ?_, by omega, by omega⟩
  rw [mod_wrap _ _ (by omega)]
  split
  · exact ht1 ‹_›
  · have := ht2 (by omega); omega

/-- C15 (ring indices, in-bounds access).  For every capacity `N ≥ 1`, in every
state reached from the constructor by calls that all came back, with no
`release()` since the last `flush()`: `_head < _buf_len`, `_tail < _buf_len`,
`_tail == (_head + _objects) mod _buf_len`, both indices are inside the
allocated array of `_buf_len` cells, and neither `_put`/`_get` nor the four
accessors touch memory outside it. -/
theorem ring_indices [Inhabited T] (N : Int) (s0 : tsemfifo T) (ops : List (Op T))
    (c : Caller T) (x obj : T) (pf : Option Nat) (hN : 1 ≤ N) (hmax : N ≤ INT_MAX)
    (h0 : construct N = some s0) (hrun : (Caller.start s0).run ops = some c)
    (hrel : release_pending false ops = false) :
    (c.q._head < c.q._buf_len ∧ c.q._tail < c.q._buf_len ∧
      c.q._tail = (c.q._head + c.q._objects) % c.q._buf_len) ∧
    (c.q._buffer.length = c.q._buf_len ∧ c.q._head < c.q._buffer.length ∧
      c.q._tail < c.q._buffer.length) ∧
    (_put pf c.q x ≠ .fault ∧ _get pf c.q obj ≠ .fault) ∧
    (put SemEnv.ok c.q x ≠ .fault ∧ try_put SemEnv.ok c.q x ≠ .fault ∧
      get SemEnv.ok c.q obj ≠ .fault ∧ try_get SemEnv.ok c.q obj ≠ .fault) := by
  have hi := Caller.run_inv N s0 ops c hmax h0 hrun hrel
  obtain ⟨-, hb, -⟩ := construct_inv N s0 hmax h0
  have hcap := Caller.run_buf_len ops (Caller.start s0) c hrun
  have hpos : 1 ≤ c.q._buf_len := by
    have : (Caller.start s0).q._buf_len = s0._buf_len := rfl
    omega
  obtain ⟨h1, h2, h3, h4, h5⟩ := hi.indices hpos
  refine ⟨⟨h1, h2, h3⟩, ⟨hi.1.1, h4, h5⟩, ⟨?_, ?_⟩, ?_, ?_, ?_, ?_⟩
  · unfold _put sem_post
    rw [if_pos h5]
    cases pf <;> simp
  · unfold _get sem_post
    rw [List.getElem?_eq_getElem h4]
    cases pf <;> simp
  · rcases put_post c.q x hi with ⟨s1, h, -⟩ | h | h <;> rw [h] <;> simp
  · rcases try_put_post c.q x hi with ⟨s1, h, -⟩ | h | h <;> rw [h] <;> simp
  · rcases get_post c.q obj hi with ⟨s1, v, h, -⟩ | h | h <;> rw [h] <;> simp
  · rcases try_get_post c.q obj hi with ⟨s1, v, h, -⟩ | h | h <;> rw [h] <;> simp

/-- Witness of C15 after `demo_wrapped`, where both indices have wrapped. -/
theorem ring_indices_witness :
    (1 : Int) ≤ 2 ∧ (2 : Int) ≤ INT_MAX ∧ construct (2 : Int) = some demo_queue ∧
    (Caller.start demo_queue).run demo_wrapped =
      some ((Caller.start demo_queue).exec demo_wrapped) ∧
    release_pending false demo_wrapped = false ∧
    ((((Caller.start demo_queue).exec demo_wrapped).q._head <
        ((Caller.start demo_queue).exec demo_wrapped).q._buf_len ∧
      ((Caller.start demo_queue).exec demo_wrapped).q._tail <
        ((Caller.start demo_queue).exec demo_wrapped).q._buf_len ∧
      ((Caller.start demo_queue).exec demo_wrapped).q._tail =
        (((Caller.start demo_queue).exec demo_wrapped).q._head +
          ((Caller.start demo_queue).exec demo_wrapped).q._objects) %
          ((Caller.start demo_queue).exec demo_wrapped).q._buf_len) ∧
      (((Caller.start demo_queue).exec demo_wrapped).q._buffer.length =
        ((Caller.start demo_queue).exec demo_wrapped).q._buf_len ∧
      ((Caller.start demo_queue).exec demo_wrapped).q._head <
        ((Caller.start demo_queue).exec demo_wrapped).q._buffer.length ∧
      ((Caller.start demo_queue).exec demo_wrapped).q._tail <
        ((Caller.start demo_queue).exec demo_wrapped).q._buffer.length) ∧
      (_put none ((Caller.start demo_queue).exec demo_wrapped).q 7 ≠ .fault ∧
        _get none ((Caller.start demo_queue).exec demo_wrapped).q 0 ≠ .fault) ∧
      (put SemEnv.ok ((Caller.start demo_queue).exec demo_wrapped).q 7 ≠ .fault ∧
        try_put SemEnv.ok ((Caller.start demo_queue).exec demo_wrapped).q 7 ≠ .fault ∧
        get SemEnv.ok ((Caller.start demo_queue).exec demo_wrapped).q 0 ≠ .fault ∧
        try_get SemEnv.ok ((Caller.start demo_queue).exec demo_wrapped).q 0 ≠ .fault)) :=
  ⟨by decide, by decide, by with_unfolding_all decide, by with_unfolding_all decide, by decide,
   ring_indices 2 demo_queue demo_wrapped _ 7 0 none (by decide) (by decide)
     (by with_unfolding_all decide) (by with_unfolding_all decide) (by decide)⟩

/-- C16 (semaphore counts).  In every state reached from the constructor by
calls that all came back, with no `release()` since the last `flush()`: the
count of `_full_sem` is `_objects`, the count of `_empty_sem` is
`_buf_len - _objects`, and the two counts sum to the capacity. -/
theorem semaphore_counts [Inhabited T] (N : Int) (s0 : tsemfifo T) (ops : List (Op T))
    (c : Caller T) (hmax : N ≤ INT_MAX) (h0 : construct N = some s0)
    (hrun : (Caller.start s0).run ops = some c) (hrel : release_pending false ops = false) :
    c.q._full_sem = c.q._objects ∧ c.q._empty_sem = c.q._buf_len - c.q._objects ∧
    c.q._objects ≤ c.q._buf_len ∧ c.q._full_sem + c.q._empty_sem = c.q.capacity := by
  obtain ⟨-, -, hle, hf, he, -⟩ := Caller.run_inv N s0 ops c hmax h0 hrun hrel
  simp only [capacity]
  omega

/-- Witness of C16 after `demo_wrapped`. -/
theorem semaphore_counts_witness :
    (2 : Int) ≤ INT_MAX ∧ construct (2 : Int) = some demo_queue ∧
    (Caller.start demo_queue).run demo_wrapped =
      some ((Caller.start demo_queue).exec demo_wrapped) ∧
    release_pending false demo_wrapped = false ∧
    (((Caller.start demo_queue).exec demo_wrapped).q._full_sem =
        ((Caller.start demo_queue).exec demo_wrapped).q._objects ∧
      ((Caller.start demo_queue).exec demo_wrapped).q._empty_sem =
        ((Caller.start demo_queue).exec demo_wrapped).q._buf_len -
          ((Caller.start demo_queue).exec demo_wrapped).q._objects ∧
      ((Caller.start demo_queue).exec demo_wrapped).q._objects ≤
        ((Caller.start demo_queue).exec demo_wrapped).q._buf_len ∧
      ((Caller.start demo_queue).exec demo_wrapped).q._full_sem +
        ((Caller.start demo_queue).exec demo_wrapped).q._empty_sem =
        ((Caller.start demo_queue).exec demo_wrapped).q.capacity) :=
  ⟨by decide, by with_unfolding_all decide, by with_unfolding_all decide, by decide,
   semaphore_counts 2 demo_queue demo_wrapped _ (by decide) (by with_unfolding_all decide)
     (by with_unfolding_all decide) (by decide)⟩

end tsemfifo

/-! ## The queue: interrupted waits and the frame of `release()` -/

theorem sem_wait_loop_eintr (k : Nat) (rest : List Nat) (count : Nat) :
    sem_wait_loop (List.replicate k EINTR ++ rest) count = sem_wait_loop rest count := by
  induction k with
  | zero => simp
  | succ k ih =>
    rw [List.replicate_succ, List.cons_append, sem_wait_loop]
    simpa [sem_wait, EINTR, EDEADLK] using ih

theorem sem_wait_loop_err (e : Nat) (rest : List Nat) (count : Nat) (he : e ≠ EINTR) :
    sem_wait_loop (e :: rest) count = .err e := by
  simp [sem_wait_loop, sem_wait, he]

namespace tsemfifo

variable {T : Type}

/-- C13 (interrupted waits in `put`/`get` are retried).  With the `sem_wait`
calls of one `put(x)` or `get(obj)` failing `k` times with `EINTR` before one
reaches the counter, the call ends exactly as without interruption, in every
state, and if the semaphore holds a unit the wait loop ends holding it; if a
`sem_wait` fails with an `errno` other than `EINTR`, after any number of
interruptions, the call throws the exception with that `errno` and leaves
every member of the queue, and `obj`, as it was. -/
theorem interrupted_wait_retried (k : Nat) (pf : Option Nat) (s : tsemfifo T) (x obj : T)
    (e : Nat) (rest : List Nat) (he : e ≠ EINTR) :
    (put ⟨List.replicate k EINTR, pf⟩ s x = put ⟨[], pf⟩ s x ∧
      get ⟨List.replicate k EINTR, pf⟩ s obj = get ⟨[], pf⟩ s obj) ∧
    (∀ count, 0 < count →
      sem_wait_loop (List.replicate k EINTR) count = .ok (count - 1)) ∧
    (put ⟨List.replicate k EINTR ++ e :: rest, pf⟩ s x = .thrown e s x ∧
      get ⟨List.replicate k EINTR ++ e :: rest, pf⟩ s obj = .thrown e s obj) := by
  have h1 : ∀ count, sem_wait_loop (List.replicate k EINTR) count = sem_wait_loop [] count := by
    intro count
    simpa using sem_wait_loop_eintr k [] count
  have h2 : ∀ count, sem_wait_loop (List.replicate k EINTR ++ e :: rest) count = .err e := by
    intro count
    rw [sem_wait_loop_eintr, sem_wait_loop_err e rest count he]
  refine ⟨⟨?_, ?_⟩, ?_, ?_, ?_⟩
  · simp only [put, h1]
  · simp only [get, h1]
  · intro count hc
    rw [h1]
    simp [sem_wait_loop, sem_wait, hc]
  · simp only [put, h2]
  · simp only [get, h2]

/-- Witness of C13 on the queue of capacity 2 holding one element: three
interruptions, then a failure with `EINVAL` (22). -/
theorem interrupted_wait_retried_witness :
    (22 : Nat) ≠ EINTR ∧
    ((put ⟨List.replicate 3 EINTR, none⟩ ((Caller.start demo_queue).exec [.try_put 1]).q 5 =
        put ⟨[], none⟩ ((Caller.start demo_queue).exec [.try_put 1]).q 5 ∧
      get ⟨List.replicate 3 EINTR, none⟩ ((Caller.start demo_queue).exec [.try_put 1]).q 0 =
        get ⟨[], none⟩ ((Caller.start demo_queue).exec [.try_put 1]).q 0) ∧
      (∀ count, 0 < count →
        sem_wait_loop (List.replicate 3 EINTR) count = .ok (count - 1)) ∧
      (put ⟨List.replicate 3 EINTR ++ 22 :: [EINTR], none⟩
          ((Caller.start demo_queue).exec [.try_put 1]).q 5 =
        .thrown 22 ((Caller.start demo_queue).exec [.try_put 1]).q 5 ∧
      get ⟨List.replicate 3 EINTR ++ 22 :: [EINTR], none⟩
          ((Caller.start demo_queue).exec [.try_put 1]).q 0 =
        .thrown 22 ((Caller.start demo_queue).exec [.try_put 1]).q 0)) ∧
    get ⟨List.replicate 3 EINTR, none⟩ ((Caller.start demo_queue).exec [.try_put 1]).q 0 =
      .returned true ((Caller.start demo_queue).exec [.try_put 1, .get 0]).q 1 :=
  ⟨by decide,
   interrupted_wait_retried 3 none ((Caller.start demo_queue).exec [.try_put 1]).q 5 0 22
     [EINTR] (by decide),
   by with_unfolding_all decide⟩

/-- C17 (frame of `release()`).  When both `sem_post` calls succeed,
`release()` raises the released flag and adds one to each semaphore count and
writes nothing else; whatever the `sem_post` calls do, the array, `_head`,
`_tail`, `_objects`, `_buf_len` and the empty flag are as before and the
released flag is up, so `size()` and `capacity()` return the same values
before and after. -/
theorem release_frame (env : SemEnv) (s : tsemfifo T) :
    release SemEnv.ok s =
      { s with _release := true, _full_sem := s._full_sem + 1,
               _empty_sem := s._empty_sem + 1 } ∧
    ((release env s)._release = true ∧ (release env s)._buffer = s._buffer ∧
      (release env s)._head = s._head ∧ (release env s)._tail = s._tail ∧
      (release env s)._objects = s._objects ∧ (release env s)._buf_len = s._buf_len ∧
      (release env s)._empty = s._empty) ∧
    (release env s).size = s.size ∧ (release env s).capacity = s.capacity :=
  ⟨rfl, ⟨rfl, rfl, rfl, rfl, rfl, rfl, rfl⟩, rfl, rfl⟩

end tsemfifo

namespace Controller

/-- C18 (vacuous quorum).  For every component map in which no entry is
active, the empty map included, and every state string `s`: no entry satisfies
`NotInState(s)`, so the check that no entry does holds. -/
theorem vacuous_quorum (m : List (String × ComponentInfo)) (s : String)
    (h : ∀ p ∈ m, p.2.active = false) :
    (∀ p ∈ m, NotInState s p = false) ∧ m.any (NotInState s) = false ∧
    ([] : List (String × ComponentInfo)).any (NotInState s) = false := by
  have h1 : ∀ p ∈ m, NotInState s p = false := by
    intro p hp
    simp [NotInState, h p hp]
  exact ⟨h1, List.any_eq_false.mpr (fun p hp => by simp [h1 p hp]), rfl⟩

/-- Witness of C18 on `demo_inactive` and a state name no component reports. -/
theorem vacuous_quorum_witness :
    (∀ p ∈ demo_inactive, p.2.active = false) ∧
    ((∀ p ∈ demo_inactive, NotInState "NoSuchState" p = false) ∧
      demo_inactive.any (NotInState "NoSuchState") = false ∧
      ([] : List (String × ComponentInfo)).any (NotInState "NoSuchState") = false) :=
  ⟨by decide, vacuous_quorum demo_inactive "NoSuchState" (by decide)⟩

end Controller
